import Mathlib

/-!
# simple-http-proxy: the handler pipeline and the listener supervisor of `main.go`

A shallow embedding of `src/main.go` and the properties of its authentication
gate, its request logger and its listener supervisor.

* Go strings are byte sequences (`GoStr`).
* A handler is a state transformer on a `World` holding the response writer of
  the request being served and the messages handed to package `log`. That a
  gate invokes the handler it wraps shows as the outcome being that handler
  applied to the request and the world the gate leaves; that it does not
  invoke it shows as the outcome being the same for every wrapped handler.
* The standard-library functions the source calls (`strings.SplitN`,
  `http.Header.Get/Add/Set`, `http.Error`, `base64.StdEncoding.DecodeString`,
  `sync.WaitGroup`) are modelled from their Go implementation; the proxy engine
  (`goproxy.NewProxyHttpServer()`) is a parameter.
* Lines 48-89 of `main` are a transition system: `main` and the goroutines it
  spawns take one statement per step, in any interleaving.
-/

namespace SimpleHttpProxy

/-! ## Strings -/

/-- A Go string: a sequence of bytes, each a natural number below 256. -/
abbrev GoStr := List Nat

/-- The bytes of an ASCII string literal of the source. -/
def str (s : String) : GoStr := s.toList.map Char.toNat

/-- Well-formed byte string: every element is a byte. -/
def IsBytes (s : GoStr) : Prop := ∀ b ∈ s, b < 256

/-- Go `strings.Index(s, sep)`: the index of the first instance of `sep` in `s`,
`none` for the result -1. -/
def Index : GoStr → GoStr → Option Nat
  | [], sep => if sep = [] then some 0 else none
  | c :: s, sep =>
    if sep.isPrefixOf (c :: s) then some 0
    else (Index s sep).map (· + 1)

/-- The loop of Go `strings.genSplit` with `sepSave = 0`: at most `n` further
cuts at `sep`, the last element is the unsplit remainder. -/
def genSplitLoop (sep : GoStr) : Nat → GoStr → List GoStr
  | 0, s => [s]
  | n + 1, s =>
    match Index s sep with
    | none => [s]
    | some m => s.take m :: genSplitLoop sep n (s.drop (m + sep.length))

/-- Go `strings.SplitN(s, sep, n)` for `n ≥ 0` and a non-empty `sep` (the source
calls it with `n = 2` and the separators `" "` and `":"`): `n = 0` gives no
element; otherwise `n` is capped at `len(s) + 1` and the string is cut at the
first `n - 1` separators. -/
def SplitN (s sep : GoStr) (n : Nat) : List GoStr :=
  if n = 0 then []
  else genSplitLoop sep (min n (s.length + 1) - 1) s

/-! ## `net/http`: headers, response writer, `http.Error` -/

/-- Go `http.Header`, a map from canonical header names to the list of values.
Every key the source uses is already in canonical form, so canonicalisation is
the identity on them. -/
abbrev Header := List (GoStr × List GoStr)

/-- All values stored under `key` (the map lookup `h[key]`). -/
def Header.Values (h : Header) (key : GoStr) : List GoStr :=
  match h.lookup key with
  | some vs => vs
  | none => []

/-- Go `Header.Get`: the first value under `key`, or `""`. -/
def Header.Get (h : Header) (key : GoStr) : GoStr :=
  match Header.Values h key with
  | v :: _ => v
  | [] => []

/-- Go `Header.Add`: append `value` to the values under `key`. -/
def Header.Add : Header → GoStr → GoStr → Header
  | [], key, value => [(key, [value])]
  | (k, vs) :: rest, key, value =>
    if k = key then (k, vs ++ [value]) :: rest
    else (k, vs) :: Header.Add rest key value

/-- Go `Header.Set`: replace the values under `key` by the single `value`. -/
def Header.Set : Header → GoStr → GoStr → Header
  | [], key, value => [(key, [value])]
  | (k, vs) :: rest, key, value =>
    if k = key then (k, [value]) :: rest
    else (k, vs) :: Header.Set rest key value

/-- The state of an `http.ResponseWriter`: the header map handed out by
`w.Header()`, the status line and header snapshot fixed by the first
`WriteHeader` (`none` before it), and the body bytes written so far. -/
structure ResponseWriter where
  header : Header
  wrote : Option (Nat × Header)
  body : GoStr
deriving DecidableEq, Repr

/-- Go `w.WriteHeader(code)` for a final status code (the source sends 403 and
407): the first call fixes the status code and the headers sent; later calls
are ignored. -/
def ResponseWriter.WriteHeader (w : ResponseWriter) (code : Nat) : ResponseWriter :=
  match w.wrote with
  | some _ => w
  | none => { w with wrote := some (code, w.header) }

/-- Go `w.Write(b)`: sends status 200 first when no header was written yet,
then appends to the body. -/
def ResponseWriter.Write (w : ResponseWriter) (b : GoStr) : ResponseWriter :=
  let w := match w.wrote with
    | some _ => w
    | none => w.WriteHeader 200
  { w with body := w.body ++ b }

/-- Go `http.StatusProxyAuthRequired`. -/
def StatusProxyAuthRequired : Nat := 407

/-- Go `http.StatusForbidden`. -/
def StatusForbidden : Nat := 403

/-- Go `http.Error(w, error, code)`: sets `Content-Type` and
`X-Content-Type-Options`, writes the status line, then prints `error` and a
newline as the body. -/
def Error (w : ResponseWriter) (error : GoStr) (code : Nat) : ResponseWriter :=
  let w := { w with header := Header.Set w.header (str "Content-Type") (str "text/plain; charset=utf-8") }
  let w := { w with header := Header.Set w.header (str "X-Content-Type-Options") (str "nosniff") }
  let w := w.WriteHeader code
  w.Write (error ++ str "\n")

/-- The status code sent to the client, if any. -/
def ResponseWriter.status (w : ResponseWriter) : Option Nat := w.wrote.map Prod.fst

/-- The header values sent to the client under `key` (empty before the status
line is written). -/
def ResponseWriter.sent (w : ResponseWriter) (key : GoStr) : List GoStr :=
  match w.wrote with
  | some (_, h) => Header.Values h key
  | none => []

/-! ## `encoding/base64`: the standard padded encoding -/

/-- The alphabet of `base64.StdEncoding`. -/
def encodeStd : GoStr :=
  str "ABCDEFGHIJKLMNOPQRSTUVWXYZabcdefghijklmnopqrstuvwxyz0123456789+/"

/-- The pad character of `base64.StdEncoding`, `'='`. -/
def padChar : Nat := '='.toNat

/-- Go `enc.decodeMap[c]`: the index of `c` in the alphabet, `0xFF` for a byte
outside it. -/
def decodeMap (c : Nat) : Nat :=
  let i := encodeStd.indexOf c
  if i < 64 then i else 0xFF

/-- The newline test of the decoder: `in == '\n' || in == '\r'`. -/
def isNewline (c : Nat) : Bool := c == 10 || c == 13

/-- The decoder's "skip over newlines" loops. -/
def skipNewlines : GoStr → GoStr
  | [] => []
  | c :: rest => if isNewline c then skipNewlines rest else c :: rest

/-- The tail of Go `decodeQuantum`: "Convert 4x 6bit source bytes into 3 bytes"
followed by `switch dlen`, which stores `dlen - 1` bytes. `dbuf` holds the
digits read so far; missing digits are zero as in the zero-initialised array. -/
def quantumBytes (dbuf : List Nat) (dlen : Nat) : List Nat :=
  let val := (dbuf.getD 0 0 <<< 18) ||| (dbuf.getD 1 0 <<< 12) ||| (dbuf.getD 2 0 <<< 6) ||| dbuf.getD 3 0
  [(val >>> 16) % 256, (val >>> 8) % 256, (val >>> 0) % 256].take (dlen - 1)

/-- What one call of Go `decodeQuantum` returns: the input left after `nsi`,
the bytes stored in `dst`, and whether `err != nil`. -/
structure Quantum where
  rest : GoStr
  out : List Nat
  err : Bool
deriving DecidableEq, Repr

/-- Go `(*Encoding).decodeQuantum` for `StdEncoding` (padded, not strict), as a
loop over the input left; `dbuf` holds the `j` digits read so far. -/
def decodeQuantum (dbuf : List Nat) : GoStr → Quantum
  | [] =>
    -- len(src) == si: fine before the first digit, corrupt inside a quantum
    if dbuf.length = 0 then ⟨[], [], false⟩ else ⟨[], [], true⟩
  | c :: src =>
    if decodeMap c ≠ 0xFF then
      if dbuf.length + 1 = 4 then ⟨src, quantumBytes (dbuf ++ [decodeMap c]) 4, false⟩
      else decodeQuantum (dbuf ++ [decodeMap c]) src
    else if isNewline c then decodeQuantum dbuf src
    else if c ≠ padChar then ⟨src, [], true⟩
    else
      -- "We've reached the end and there's padding"
      match dbuf.length with
      | 0 => ⟨src, [], true⟩
      | 1 => ⟨src, [], true⟩
      | 2 =>
        -- "==" is expected, the first "=" is already consumed
        match skipNewlines src with
        | [] => ⟨[], [], true⟩
        | c2 :: src2 =>
          if c2 ≠ padChar then ⟨src2, [], true⟩
          else
            let rest := skipNewlines src2
            ⟨rest, quantumBytes dbuf 2, !rest.isEmpty⟩
      | j =>
        let rest := skipNewlines src
        ⟨rest, quantumBytes dbuf j, !rest.isEmpty⟩

/-- The loop of Go `(*Encoding).Decode`: one quantum after the other until the
input is used up or a quantum reports an error; the bytes decoded before the
error are kept. (The 8- and 4-byte fast paths of `Decode` compute the same
bytes as `decodeQuantum` on groups of valid digits and fall back to it
otherwise.) The first argument bounds the number of quanta. -/
def decodeLoop : Nat → GoStr → GoStr × Bool
  | 0, _ => ([], false)
  | fuel + 1, src =>
    if src.isEmpty then ([], false)
    else
      let q := decodeQuantum [] src
      if q.err then (q.out, true)
      else ((q.out ++ (decodeLoop fuel q.rest).1), (decodeLoop fuel q.rest).2)

/-- Go `base64.StdEncoding.DecodeString(s)`: the decoded bytes and whether the
error is non-nil. On malformed input the bytes decoded so far are returned
together with the error. Every quantum consumes input, so `len(s)` quanta
suffice. -/
def DecodeString (s : GoStr) : GoStr × Bool := decodeLoop s.length s

/-- Go `base64.StdEncoding.EncodeToString`: three bytes become four digits; a
final group of one or two bytes is padded with `=`. -/
def EncodeToString : GoStr → GoStr
  | [] => []
  | [b0] =>
    let val := b0 <<< 16
    [encodeStd.getD ((val >>> 18) &&& 0x3F) 0, encodeStd.getD ((val >>> 12) &&& 0x3F) 0,
     padChar, padChar]
  | [b0, b1] =>
    let val := (b0 <<< 16) ||| (b1 <<< 8)
    [encodeStd.getD ((val >>> 18) &&& 0x3F) 0, encodeStd.getD ((val >>> 12) &&& 0x3F) 0,
     encodeStd.getD ((val >>> 6) &&& 0x3F) 0, padChar]
  | b0 :: b1 :: b2 :: rest =>
    let val := (b0 <<< 16) ||| (b1 <<< 8) ||| b2
    encodeStd.getD ((val >>> 18) &&& 0x3F) 0 :: encodeStd.getD ((val >>> 12) &&& 0x3F) 0 ::
      encodeStd.getD ((val >>> 6) &&& 0x3F) 0 :: encodeStd.getD (val &&& 0x3F) 0 ::
      EncodeToString rest

/-! ## The handlers of `main.go` -/

/-- The fields of `*http.Request` the source reads. `URL` is the request URL as
`%s` prints it. -/
structure Request where
  RemoteAddr : GoStr
  Method : GoStr
  URL : GoStr
  Header : SimpleHttpProxy.Header
deriving DecidableEq, Repr

/-- What a handler acts on: the response writer of the request being served and
the messages handed to package `log`, oldest first. -/
structure World where
  w : ResponseWriter
  log : List GoStr
deriving DecidableEq, Repr

/-- Go `http.HandlerFunc`: `func(w http.ResponseWriter, r *http.Request)`. -/
abbrev HandlerFunc := Request → World → World

/-- The source's `type validator func(username, password string) bool`. A
validator is not handed the response writer or the request, so whatever effect
a call has is on the rest of the world, here the log: it takes the log and
returns its verdict and the log it leaves. -/
abbrev Validator := GoStr → GoStr → List GoStr → Bool × List GoStr

/-- The source's `basicAuth`. -/
def basicAuth (pass : HandlerFunc) (validator : Validator) : HandlerFunc := fun r s =>
  let auth := SplitN (Header.Get r.Header (str "Proxy-Authorization")) (str " ") 2
  if auth.length ≠ 2 ∨ auth.getD 0 [] ≠ str "Basic" then
    let h := Header.Add s.w.header (str "Proxy-Authenticate") (str "Basic realm=Need Username and Password")
    let s := { s with w := { s.w with header := h } }
    { s with w := Error s.w (str "require basic proxy auth") StatusProxyAuthRequired }
  else
    -- `payload, _ := base64.StdEncoding.DecodeString(auth[1])`: the error is dropped
    let payload := (DecodeString (auth.getD 1 [])).1
    let pair := SplitN payload (str ":") 2
    if pair.length ≠ 2 then
      { s with w := Error s.w (str "authorization failed") StatusForbidden }
    else
      let res := validator (pair.getD 0 []) (pair.getD 1 []) s.log
      let s := { s with log := res.2 }
      if !res.1 then
        { s with w := Error s.w (str "authorization failed") StatusForbidden }
      else pass r s

/-- The message `log.Printf("%s %s %s\n", r.RemoteAddr, r.Method, r.URL)` hands
to the logger. -/
def requestLine (r : Request) : GoStr :=
  r.RemoteAddr ++ str " " ++ r.Method ++ str " " ++ r.URL ++ str "\n"

/-- The source's `logRequest`. -/
def logRequest (handler : HandlerFunc) : HandlerFunc := fun r s =>
  let s := { s with log := s.log ++ [requestLine r] }
  handler r s

/-! ## `main`: options and the handler pipeline (lines 26-46) -/

/-- The package-level option variables filled in by `flag.Parse()`. -/
structure Options where
  certFile : GoStr
  keyFile : GoStr
  bind : GoStr
  httpPort : GoStr
  httpsPort : GoStr
  authUsername : GoStr
  authPassword : GoStr
deriving DecidableEq, Repr

/-- The flag defaults of lines 26-32. -/
def defaultOptions : Options :=
  { certFile := [], keyFile := [], bind := str "0.0.0.0", httpPort := str "1080",
    httpsPort := [], authUsername := [], authPassword := [] }

/-- Line 35: `useHttps := certFile != "" && keyFile != "" && httpsPort != ""`. -/
def useHttps (o : Options) : Bool := o.certFile != [] && o.keyFile != [] && o.httpsPort != []

/-- Line 36: `useBasicAuth := authUsername != "" && authPassword != ""`. -/
def useBasicAuth (o : Options) : Bool := o.authUsername != [] && o.authPassword != []

/-- The closure of lines 41-43: equality with the configured credentials, no
effect. -/
def credentialValidator (o : Options) : Validator := fun username password log =>
  (username == o.authUsername && password == o.authPassword, log)

/-- The handler `main` builds in lines 38-46; `proxy` stands for the handler of
`goproxy.NewProxyHttpServer()`. -/
def mainHandler (o : Options) (proxy : HandlerFunc) : HandlerFunc :=
  let handler := proxy
  let handler := if useBasicAuth o then basicAuth handler (credentialValidator o) else handler
  logRequest handler

/-! ## `main`: the listener supervisor (lines 48-89)

`main` and the goroutines it spawns are threads of a transition system that
share the `sync.WaitGroup` counter and the log. One `Action` is one statement
of one thread; any interleaving is a run. -/

/-- The two listeners `main` may start. -/
inductive Listener
  | http
  | https
deriving DecidableEq, Repr

/-- Where a listener goroutine (lines 60-66, 80-86) stands. -/
inductive Goroutine
  /-- No `go` statement has been executed for it. -/
  | notStarted
  /-- Inside `server.ListenAndServe()` or `server.ListenAndServeTLS(..)`. -/
  | serving
  /-- The serve call returned `err` (`none` is nil); next is `if err != nil`. -/
  | returned (err : Option GoStr)
  /-- Next is `wait.Done()`. -/
  | beforeDone
  /-- The goroutine has run to its end. -/
  | finished
deriving DecidableEq, Repr

/-- The statement `main` executes next. -/
inductive MainPc
  /-- Line 50, `if httpPort != ""`. -/
  | httpCheck
  /-- Line 58, `wait.Add(1)`. -/
  | httpAdd
  /-- Line 59, `log.Printf("http listen at %s\n", listen)`. -/
  | httpLog
  /-- Line 60, `go func() ...`. -/
  | httpGo
  /-- Line 69, `if useHttps`. -/
  | httpsCheck
  /-- Line 78, `wait.Add(1)`. -/
  | httpsAdd
  /-- Line 79, `log.Printf("https listen at %s\n", listen)`. -/
  | httpsLog
  /-- Line 80, `go func() ...`. -/
  | httpsGo
  /-- Line 89, `wait.Wait()`. -/
  | waiting
  /-- The process has ended with this exit code: 0 when `main` returned, 2 after
  a panic. No thread runs any more. -/
  | exited (code : Nat)
deriving DecidableEq, Repr

/-- The state of the process during lines 48-89. -/
structure Sys where
  pc : MainPc
  /-- The counter of `wait`, the `sync.WaitGroup`. -/
  wait : Int
  http : Goroutine
  https : Goroutine
  log : List GoStr
deriving DecidableEq, Repr

/-- The state at line 48: a fresh `sync.WaitGroup`, no goroutine, nothing
logged. -/
def Sys.init : Sys :=
  { pc := .httpCheck, wait := 0, http := .notStarted, https := .notStarted, log := [] }

/-- The goroutine of a listener. -/
def Sys.goroutine (s : Sys) : Listener → Goroutine
  | .http => s.http
  | .https => s.https

/-- Move the goroutine of a listener. -/
def Sys.setGoroutine (s : Sys) : Listener → Goroutine → Sys
  | .http, g => { s with http := g }
  | .https, g => { s with https := g }

/-- Go `(*WaitGroup).Add(delta)`: adds `delta` to the counter and panics when
the counter becomes negative, which ends the process with exit code 2.
`Done()` is `Add(-1)`. -/
def Sys.Add (s : Sys) (delta : Int) : Sys :=
  if s.wait + delta < 0 then { s with pc := .exited 2 }
  else { s with wait := s.wait + delta }

/-- The address `fmt.Sprintf("%s:%s", bind, port)`. -/
def listenAddr (bind port : GoStr) : GoStr := bind ++ str ":" ++ port

/-- One statement of `main`; `none` when `main` cannot move (it is blocked in
`wait.Wait()` on a non-zero counter). -/
def stepMain (o : Options) (s : Sys) : Option Sys :=
  match s.pc with
  | .httpCheck => some { s with pc := if o.httpPort != [] then .httpAdd else .httpsCheck }
  | .httpAdd => some ({ s with pc := .httpLog }.Add 1)
  | .httpLog =>
    some { s with log := s.log ++ [str "http listen at " ++ listenAddr o.bind o.httpPort ++ str "\n"],
                  pc := .httpGo }
  | .httpGo => some { s with http := .serving, pc := .httpsCheck }
  | .httpsCheck => some { s with pc := if useHttps o then .httpsAdd else .waiting }
  | .httpsAdd => some ({ s with pc := .httpsLog }.Add 1)
  | .httpsLog =>
    some { s with log := s.log ++ [str "https listen at " ++ listenAddr o.bind o.httpsPort ++ str "\n"],
                  pc := .httpsGo }
  | .httpsGo => some { s with https := .serving, pc := .waiting }
  | .waiting => if s.wait = 0 then some { s with pc := .exited 0 } else none
  | .exited _ => none

/-- The serve call of listener `l` returns `err`; enabled only while it is
serving. -/
def stepServeReturns (l : Listener) (err : Option GoStr) (s : Sys) : Option Sys :=
  match s.goroutine l with
  | .serving => some (s.setGoroutine l (.returned err))
  | _ => none

/-- One statement of the goroutine of `l` after its serve call:
`if err != nil { log.Println(err) }`, then `wait.Done()`. -/
def stepGoroutine (l : Listener) (s : Sys) : Option Sys :=
  match s.goroutine l with
  | .returned (some e) =>
    some { s.setGoroutine l .beforeDone with log := s.log ++ [e ++ str "\n"] }
  | .returned none => some (s.setGoroutine l .beforeDone)
  | .beforeDone => some ((s.setGoroutine l .finished).Add (-1))
  | _ => none

/-- Which thread moves, and for a serve call what it returns. -/
inductive Action
  | main
  | serveReturns (l : Listener) (err : Option GoStr)
  | goroutine (l : Listener)
deriving DecidableEq, Repr

/-- One step of the process. Nothing moves once the process has exited. -/
def step (o : Options) (a : Action) (s : Sys) : Option Sys :=
  match s.pc with
  | .exited _ => none
  | _ =>
    match a with
    | .main => stepMain o s
    | .serveReturns l err => stepServeReturns l err s
    | .goroutine l => stepGoroutine l s

/-- Run a schedule from a state; `none` when some action of it is not
enabled. -/
def run (o : Options) : List Action → Sys → Option Sys
  | [], s => some s
  | a :: as, s =>
    match step o a s with
    | some s1 => run o as s1
    | none => none

/-- A state some schedule reaches from the start of line 48. -/
def Reachable (o : Options) (s : Sys) : Prop := ∃ as, run o as Sys.init = some s

/-- The position of `main` in lines 50-89. -/
def MainPc.rank : MainPc → Nat
  | .httpCheck => 0
  | .httpAdd => 1
  | .httpLog => 2
  | .httpGo => 3
  | .httpsCheck => 4
  | .httpsAdd => 5
  | .httpsLog => 6
  | .httpsGo => 7
  | .waiting => 8
  | .exited _ => 9

/-- `wait.Add(1)` has been executed for the listener and its `go` statement has not. -/
def MainPc.pendingAdd : MainPc → Listener → Bool
  | .httpLog, .http => true
  | .httpGo, .http => true
  | .httpsLog, .https => true
  | .httpsGo, .https => true
  | _, _ => false

/-- The goroutine exists and has not executed `wait.Done()`. -/
def Goroutine.running : Goroutine → Bool
  | .serving => true
  | .returned _ => true
  | .beforeDone => true
  | _ => false

/-- What a listener contributes to the counter: 1 from its `wait.Add(1)` to its `wait.Done()`. -/
def Sys.inFlight (s : Sys) (l : Listener) : Int :=
  if s.pc.pendingAdd l || (s.goroutine l).running then 1 else 0

/-- The invariant of the supervisor. -/
structure Inv (o : Options) (s : Sys) : Prop where
  count : s.wait = s.inFlight .http + s.inFlight .https
  http_started : s.http ≠ .notStarted → 4 ≤ s.pc.rank
  https_started : s.https ≠ .notStarted → 8 ≤ s.pc.rank
  exit : ∀ c, s.pc = .exited c → c = 0 ∧ s.wait = 0
  http_branch : 1 ≤ s.pc.rank → s.pc.rank ≤ 3 → o.httpPort ≠ []
  https_branch : 5 ≤ s.pc.rank → s.pc.rank ≤ 7 → useHttps o = true
  http_plan : 4 ≤ s.pc.rank → (s.http ≠ .notStarted ↔ o.httpPort ≠ [])
  https_plan : 8 ≤ s.pc.rank → (s.https ≠ .notStarted ↔ useHttps o = true)

/-- Both listeners enabled: the defaults with a certificate, a key and
`https-port=1443`. -/
def dualOptions : Options :=
  { defaultOptions with certFile := str "cert.pem", keyFile := str "key.pem", httpsPort := str "1443" }

/-- No listener enabled: the defaults with an empty `port`. -/
def noListenerOptions : Options := { defaultOptions with httpPort := [] }

/-- The lines a serve call's return value adds to the log: `log.Println(err)`
for a non-nil error, nothing for nil. -/
def errLines : Option GoStr → List GoStr
  | some e => [e ++ str "\n"]
  | none => []

/-- The states of a process without listeners: `main` is at one of its two
tests, at `wait.Wait()` or has returned; nothing was counted, started or
logged. -/
def Sys.Idle (s : Sys) : Prop :=
  s.wait = 0 ∧ s.http = .notStarted ∧ s.https = .notStarted ∧ s.log = [] ∧
    (s.pc = .httpCheck ∨ s.pc = .httpsCheck ∨ s.pc = .waiting ∨ s.pc = .exited 0)

/-- A schedule in which both listeners are started and the plaintext one fails
to bind: `main` runs to `wait.Wait()`, then the plaintext serve call returns
an error and its goroutine runs to its end. -/
def bindFailureSchedule : List Action :=
  [.main, .main, .main, .main, .main, .main, .main, .main,
   .serveReturns .http (some (str "listen tcp 0.0.0.0:1080: bind: address already in use")),
   .goroutine .http, .goroutine .http]

/-- The state `bindFailureSchedule` reaches with both listeners enabled. -/
def bindFailureState : Sys :=
  { pc := .waiting, wait := 1, http := .finished, https := .serving,
    log := [str "http listen at 0.0.0.0:1080\n", str "https listen at 0.0.0.0:1443\n",
            str "listen tcp 0.0.0.0:1080: bind: address already in use\n"] }

/-! ## Concrete inputs -/

/-- Options of scenario 3 of the specification: the defaults with
`auth-username=u` and `auth-password=p`. -/
def authOptions : Options := { defaultOptions with authUsername := str "u", authPassword := str "p" }

/-- A `GET` request carrying the given `Proxy-Authorization` values (none for
the empty list). -/
def getRequest (auth : List GoStr) : Request :=
  { RemoteAddr := str "10.0.0.7:51234", Method := str "GET", URL := str "http://origin.test/hello",
    Header := if auth.isEmpty then [] else [(str "Proxy-Authorization", auth)] }

/-- The world a server hands to its handler: nothing written, nothing logged. -/
def freshWorld : World := { w := { header := [], wrote := none, body := [] }, log := [] }

/-- A stand-in for the proxy engine: it answers 200 with the body `HELLO`. -/
def helloEngine : HandlerFunc := fun _ s =>
  { s with w := (s.w.WriteHeader 200).Write (str "HELLO") }

/-! # Theorems -/

/-! ## Strings -/

theorem str_space : str " " = [32] := by decide
theorem str_colon : str ":" = [58] := by decide

theorem Index_single_of_not_mem (c : Nat) (s : GoStr) (h : c ∉ s) : Index s [c] = none := by
  induction s with
  | nil => simp [Index]
  | cons a s ih =>
    have ha : ¬ c = a := fun e => h (by simp [e])
    have hs : c ∉ s := fun e => h (by simp [e])
    simp [Index, List.isPrefixOf, ha, ih hs]

theorem Index_single_of_mem (c : Nat) (pre post : GoStr) (h : c ∉ pre) :
    Index (pre ++ c :: post) [c] = some pre.length := by
  induction pre with
  | nil => simp [Index, List.isPrefixOf]
  | cons a pre ih =>
    have ha : ¬ c = a := fun e => h (by simp [e])
    have hs : c ∉ pre := fun e => h (by simp [e])
    simp [Index, List.isPrefixOf, ha, ih hs]

theorem SplitN_single_of_not_mem (c : Nat) (s : GoStr) (h : c ∉ s) : SplitN s [c] 2 = [s] := by
  unfold SplitN
  simp only [OfNat.ofNat_ne_zero, if_false]
  cases hn : min 2 (s.length + 1) - 1 with
  | zero => rfl
  | succ n => simp [genSplitLoop, Index_single_of_not_mem c s h]

theorem SplitN_single_of_mem (c : Nat) (pre post : GoStr) (h : c ∉ pre) :
    SplitN (pre ++ c :: post) [c] 2 = [pre, post] := by
  unfold SplitN
  have hn : min 2 ((pre ++ c :: post).length + 1) - 1 = 1 := by
    simp only [List.length_append, List.length_cons]; omega
  rw [if_neg (by decide), hn]
  simp [genSplitLoop, Index_single_of_mem c pre post h]

/-- Every string either lacks `c` or splits at its first `c`. -/
theorem exists_first (c : Nat) (s : GoStr) :
    c ∉ s ∨ ∃ pre post, s = pre ++ c :: post ∧ c ∉ pre := by
  induction s with
  | nil => left; simp
  | cons a s ih =>
    by_cases ha : c = a
    · right; exact ⟨[], s, by simp [ha], by simp⟩
    · rcases ih with h | ⟨pre, post, hs, hp⟩
      · left; simp [ha, h]
      · right; exact ⟨a :: pre, post, by simp [hs], by simp [ha, hp]⟩

/-! ## Base64 -/

theorem or_eq_add (a b i : Nat) (ha : 2 ^ i ∣ a) (hb : b < 2 ^ i) : a ||| b = a + b := by
  obtain ⟨k, rfl⟩ := ha
  exact (Nat.mul_add_lt_is_or hb k).symm

theorem and_63 (x : Nat) : x &&& 0x3F = x % 64 := Nat.and_pow_two_sub_one_eq_mod x 6

theorem decodeMap_encodeStd : ∀ i, i < 64 → decodeMap (encodeStd.getD i 0) = i := by decide

theorem decodeMap_padChar : decodeMap padChar = 0xFF := by decide

/-- The value assembled from three bytes is their base-256 number. -/
theorem val3 (b0 b1 b2 : Nat) (h1 : b1 < 256) (h2 : b2 < 256) :
    (b0 <<< 16) ||| (b1 <<< 8) ||| b2 = b0 * 65536 + b1 * 256 + b2 := by
  simp only [Nat.shiftLeft_eq]
  rw [or_eq_add (b0 * 2 ^ 16) (b1 * 2 ^ 8) 16 (by norm_num) (by norm_num; omega)]
  rw [or_eq_add _ b2 8 (by norm_num; omega) (by norm_num; omega)]

/-- The value assembled from four digits is their base-64 number. -/
theorem val4 (d0 d1 d2 d3 : Nat) (h1 : d1 < 64) (h2 : d2 < 64) (h3 : d3 < 64) :
    (d0 <<< 18) ||| (d1 <<< 12) ||| (d2 <<< 6) ||| d3
      = d0 * 262144 + d1 * 4096 + d2 * 64 + d3 := by
  simp only [Nat.shiftLeft_eq]
  rw [or_eq_add (d0 * 2 ^ 18) (d1 * 2 ^ 12) 18 (by norm_num) (by norm_num; omega)]
  rw [or_eq_add _ (d2 * 2 ^ 6) 12 (by norm_num; omega) (by norm_num; omega)]
  rw [or_eq_add _ d3 6 (by norm_num; omega) (by norm_num; omega)]

/-- Decoding the four digits of three bytes gives the bytes back. -/
theorem quantumBytes_three (b0 b1 b2 : Nat) (h0 : b0 < 256) (h1 : b1 < 256) (h2 : b2 < 256) :
    quantumBytes
      [(((b0 <<< 16) ||| (b1 <<< 8) ||| b2) >>> 18) &&& 0x3F,
       (((b0 <<< 16) ||| (b1 <<< 8) ||| b2) >>> 12) &&& 0x3F,
       (((b0 <<< 16) ||| (b1 <<< 8) ||| b2) >>> 6) &&& 0x3F,
       ((b0 <<< 16) ||| (b1 <<< 8) ||| b2) &&& 0x3F] 4 = [b0, b1, b2] := by
  rw [val3 b0 b1 b2 h1 h2]
  simp only [quantumBytes, and_63, Nat.shiftRight_eq_div_pow, List.getD_cons_zero,
    List.getD_cons_succ]
  rw [val4 _ _ _ _ (Nat.mod_lt _ (by norm_num)) (Nat.mod_lt _ (by norm_num))
    (Nat.mod_lt _ (by norm_num))]
  norm_num
  refine ⟨?_, ?_, ?_⟩ <;> omega

theorem quantumBytes_two (b0 b1 : Nat) (h0 : b0 < 256) (h1 : b1 < 256) :
    quantumBytes
      [(((b0 <<< 16) ||| (b1 <<< 8)) >>> 18) &&& 0x3F,
       (((b0 <<< 16) ||| (b1 <<< 8)) >>> 12) &&& 0x3F,
       (((b0 <<< 16) ||| (b1 <<< 8)) >>> 6) &&& 0x3F] 3 = [b0, b1] := by
  have hv : (b0 <<< 16) ||| (b1 <<< 8) = b0 * 65536 + b1 * 256 := by
    simp only [Nat.shiftLeft_eq]
    rw [or_eq_add (b0 * 2 ^ 16) (b1 * 2 ^ 8) 16 (by norm_num) (by norm_num; omega)]
  rw [hv]
  simp only [quantumBytes, and_63, Nat.shiftRight_eq_div_pow, List.getD_cons_zero,
    List.getD_cons_succ, List.getD_nil]
  rw [val4 _ _ _ _ (Nat.mod_lt _ (by norm_num)) (Nat.mod_lt _ (by norm_num))
    (by norm_num)]
  norm_num
  refine ⟨?_, ?_⟩ <;> omega

theorem quantumBytes_one (b0 : Nat) (h0 : b0 < 256) :
    quantumBytes [((b0 <<< 16) >>> 18) &&& 0x3F, ((b0 <<< 16) >>> 12) &&& 0x3F] 2 = [b0] := by
  have hv : b0 <<< 16 = b0 * 65536 := by
    rw [Nat.shiftLeft_eq]
  rw [hv]
  simp only [quantumBytes, and_63, Nat.shiftRight_eq_div_pow, List.getD_cons_zero,
    List.getD_cons_succ, List.getD_nil]
  rw [val4 _ _ _ _ (Nat.mod_lt _ (by norm_num)) (by norm_num) (by norm_num)]
  norm_num
  omega

theorem decodeQuantum_digits4 (c0 c1 c2 c3 : Nat) (h0 : decodeMap c0 ≠ 0xFF)
    (h1 : decodeMap c1 ≠ 0xFF) (h2 : decodeMap c2 ≠ 0xFF) (h3 : decodeMap c3 ≠ 0xFF)
    (rest : GoStr) :
    decodeQuantum [] (c0 :: c1 :: c2 :: c3 :: rest)
      = ⟨rest, quantumBytes [decodeMap c0, decodeMap c1, decodeMap c2, decodeMap c3] 4, false⟩ := by
  simp [decodeQuantum, h0, h1, h2, h3]

theorem decodeQuantum_digits3 (c0 c1 c2 : Nat) (h0 : decodeMap c0 ≠ 0xFF)
    (h1 : decodeMap c1 ≠ 0xFF) (h2 : decodeMap c2 ≠ 0xFF) :
    decodeQuantum [] [c0, c1, c2, padChar]
      = ⟨[], quantumBytes [decodeMap c0, decodeMap c1, decodeMap c2] 3, false⟩ := by
  have hp : isNewline padChar = false := by decide
  simp [decodeQuantum, h0, h1, h2, decodeMap_padChar, hp, skipNewlines]

theorem decodeQuantum_digits2 (c0 c1 : Nat) (h0 : decodeMap c0 ≠ 0xFF)
    (h1 : decodeMap c1 ≠ 0xFF) :
    decodeQuantum [] [c0, c1, padChar, padChar]
      = ⟨[], quantumBytes [decodeMap c0, decodeMap c1] 2, false⟩ := by
  have hp : isNewline padChar = false := by decide
  simp [decodeQuantum, h0, h1, decodeMap_padChar, hp, skipNewlines]

theorem decodeMap_digit_ne (i : Nat) (h : i < 64) : decodeMap (encodeStd.getD i 0) ≠ 0xFF := by
  rw [decodeMap_encodeStd i h]; omega

theorem decodeQuantum_four (d0 d1 d2 d3 : Nat) (h0 : d0 < 64) (h1 : d1 < 64) (h2 : d2 < 64)
    (h3 : d3 < 64) (rest : GoStr) :
    decodeQuantum [] (encodeStd.getD d0 0 :: encodeStd.getD d1 0 :: encodeStd.getD d2 0 ::
      encodeStd.getD d3 0 :: rest) = ⟨rest, quantumBytes [d0, d1, d2, d3] 4, false⟩ := by
  rw [decodeQuantum_digits4 _ _ _ _ (decodeMap_digit_ne _ h0) (decodeMap_digit_ne _ h1)
    (decodeMap_digit_ne _ h2) (decodeMap_digit_ne _ h3), decodeMap_encodeStd _ h0,
    decodeMap_encodeStd _ h1, decodeMap_encodeStd _ h2, decodeMap_encodeStd _ h3]

theorem decodeQuantum_three_pad (d0 d1 d2 : Nat) (h0 : d0 < 64) (h1 : d1 < 64) (h2 : d2 < 64) :
    decodeQuantum [] [encodeStd.getD d0 0, encodeStd.getD d1 0, encodeStd.getD d2 0, padChar]
      = ⟨[], quantumBytes [d0, d1, d2] 3, false⟩ := by
  rw [decodeQuantum_digits3 _ _ _ (decodeMap_digit_ne _ h0) (decodeMap_digit_ne _ h1)
    (decodeMap_digit_ne _ h2), decodeMap_encodeStd _ h0,
    decodeMap_encodeStd _ h1, decodeMap_encodeStd _ h2]

theorem decodeQuantum_two_pad (d0 d1 : Nat) (h0 : d0 < 64) (h1 : d1 < 64) :
    decodeQuantum [] [encodeStd.getD d0 0, encodeStd.getD d1 0, padChar, padChar]
      = ⟨[], quantumBytes [d0, d1] 2, false⟩ := by
  rw [decodeQuantum_digits2 _ _ (decodeMap_digit_ne _ h0) (decodeMap_digit_ne _ h1),
    decodeMap_encodeStd _ h0, decodeMap_encodeStd _ h1]

theorem and_63_lt (x : Nat) : x &&& 0x3F < 64 := by
  rw [and_63]; omega

/-- Decoding inverts encoding on byte strings, with any sufficient bound on the quanta. -/
theorem decodeLoop_EncodeToString (bs : GoStr) :
    IsBytes bs → ∀ fuel, (EncodeToString bs).length ≤ fuel →
      decodeLoop fuel (EncodeToString bs) = (bs, false) := by
  induction bs using EncodeToString.induct with
  | case1 => intro _ fuel _; cases fuel <;> simp [EncodeToString, decodeLoop]
  | case2 b0 =>
    intro hb fuel hf
    have h0 : b0 < 256 := hb b0 (by simp)
    cases fuel with
    | zero => simp [EncodeToString] at hf
    | succ fuel =>
      cases fuel with
      | zero => simp [EncodeToString] at hf
      | succ fuel =>
        simp only [EncodeToString, decodeLoop, List.isEmpty_cons, Bool.false_eq_true, if_false]
        rw [decodeQuantum_two_pad _ _ (and_63_lt _) (and_63_lt _)]
        simp [decodeLoop, quantumBytes_one b0 h0]
  | case3 b0 b1 =>
    intro hb fuel hf
    have h0 : b0 < 256 := hb b0 (by simp)
    have h1 : b1 < 256 := hb b1 (by simp)
    cases fuel with
    | zero => simp [EncodeToString] at hf
    | succ fuel =>
      cases fuel with
      | zero => simp [EncodeToString] at hf
      | succ fuel =>
        simp only [EncodeToString, decodeLoop, List.isEmpty_cons, Bool.false_eq_true, if_false]
        rw [decodeQuantum_three_pad _ _ _ (and_63_lt _) (and_63_lt _) (and_63_lt _)]
        simp [decodeLoop, quantumBytes_two b0 b1 h0 h1]
  | case4 b0 b1 b2 rest ih =>
    intro hb fuel hf
    have h0 : b0 < 256 := hb b0 (by simp)
    have h1 : b1 < 256 := hb b1 (by simp)
    have h2 : b2 < 256 := hb b2 (by simp)
    have hr : IsBytes rest := fun b hm => hb b (by simp [hm])
    cases fuel with
    | zero => simp [EncodeToString] at hf
    | succ fuel =>
      have hf' : (EncodeToString rest).length ≤ fuel := by
        simp only [EncodeToString, List.length_cons] at hf; omega
      simp only [EncodeToString, decodeLoop, List.isEmpty_cons, Bool.false_eq_true, if_false]
      rw [decodeQuantum_four _ _ _ _ (and_63_lt _) (and_63_lt _) (and_63_lt _) (and_63_lt _)]
      simp [ih hr fuel hf', quantumBytes_three b0 b1 b2 h0 h1 h2]

theorem DecodeString_EncodeToString (bs : GoStr) (hb : IsBytes bs) :
    DecodeString (EncodeToString bs) = (bs, false) :=
  decodeLoop_EncodeToString bs hb _ (le_refl _)

theorem skipNewlines_length_le (s : GoStr) : (skipNewlines s).length ≤ s.length := by
  induction s with
  | nil => simp [skipNewlines]
  | cons c s ih =>
    unfold skipNewlines
    split
    · simp only [List.length_cons]; omega
    · simp

/-- A quantum never returns more input than it was given, and one that starts on a non-empty
input uses up at least its first byte. -/
theorem decodeQuantum_rest_le (src : GoStr) :
    ∀ dbuf, (decodeQuantum dbuf src).rest.length ≤ src.length - 1 := by
  induction src with
  | nil => intro dbuf; unfold decodeQuantum; split <;> simp
  | cons c src ih =>
    intro dbuf
    have hs := skipNewlines_length_le src
    have ih1 := ih (dbuf ++ [decodeMap c])
    have ih2 := ih dbuf
    unfold decodeQuantum
    simp only [List.length_cons, Nat.add_sub_cancel]
    split
    · split
      · simp
      · omega
    · split
      · omega
      · split
        · simp
        · split
          · simp
          · simp
          · split
            · simp
            · rename_i c2 src2 heq
              have h2 := skipNewlines_length_le src2
              have h3 : (skipNewlines src).length = src2.length + 1 := by rw [heq]; simp
              split
              · simp; omega
              · simp; omega
          · simp; omega

/-- The bound on the number of quanta in `DecodeString` is never reached: any bound of at
least the length of the input gives the same result. -/
theorem decodeLoop_fuel (n : Nat) :
    ∀ m src, src.length ≤ n → src.length ≤ m → decodeLoop n src = decodeLoop m src := by
  induction n with
  | zero =>
    intro m src hn _
    have : src = [] := List.length_eq_zero.mp (by omega)
    subst this
    cases m <;> simp [decodeLoop]
  | succ n ih =>
    intro m src hn hm
    cases m with
    | zero =>
      have : src = [] := List.length_eq_zero.mp (by omega)
      subst this
      simp [decodeLoop]
    | succ m =>
      cases src with
      | nil => simp [decodeLoop]
      | cons c src =>
        have hq := decodeQuantum_rest_le (c :: src) []
        simp only [List.length_cons, Nat.add_sub_cancel] at hq hn hm
        simp only [decodeLoop, List.isEmpty_cons, Bool.false_eq_true, if_false]
        rw [ih m (decodeQuantum [] (c :: src)).rest (by omega) (by omega)]

theorem DecodeString_eq_of_fuel (s : GoStr) (n : Nat) (h : s.length ≤ n) :
    decodeLoop n s = DecodeString s :=
  decodeLoop_fuel n s.length s h (le_refl _)

/-- A string is its leading newlines followed by what `skipNewlines` leaves, and the leading
newlines are skipped in front of anything. -/
theorem skipNewlines_split (s : GoStr) :
    ∃ nl, s = nl ++ skipNewlines s ∧ ∀ t, skipNewlines (nl ++ t) = skipNewlines t := by
  induction s with
  | nil => exact ⟨[], by simp [skipNewlines], fun t => rfl⟩
  | cons c s ih =>
    obtain ⟨nl, h1, h2⟩ := ih
    by_cases hc : isNewline c = true
    · refine ⟨c :: nl, ?_, ?_⟩
      · simp only [skipNewlines, hc, if_true, List.cons_append]; rw [← h1]
      · intro t; simp only [List.cons_append, skipNewlines, hc, if_true]; exact h2 t
    · refine ⟨[], ?_, fun t => rfl⟩
      simp [skipNewlines, hc]

theorem decodeQuantum_digit (dbuf : List Nat) (c : Nat) (src : GoStr)
    (hd : decodeMap c ≠ 0xFF) (h4 : ¬ dbuf.length + 1 = 4) :
    decodeQuantum dbuf (c :: src) = decodeQuantum (dbuf ++ [decodeMap c]) src := by
  rw [decodeQuantum, if_pos hd, if_neg h4]

theorem decodeQuantum_digit4 (dbuf : List Nat) (c : Nat) (src : GoStr)
    (hd : decodeMap c ≠ 0xFF) (h4 : dbuf.length + 1 = 4) :
    decodeQuantum dbuf (c :: src) = ⟨src, quantumBytes (dbuf ++ [decodeMap c]) 4, false⟩ := by
  rw [decodeQuantum, if_pos hd, if_pos h4]

theorem decodeQuantum_newline (dbuf : List Nat) (c : Nat) (src : GoStr)
    (hd : ¬ decodeMap c ≠ 0xFF) (hn : isNewline c = true) :
    decodeQuantum dbuf (c :: src) = decodeQuantum dbuf src := by
  rw [decodeQuantum, if_neg hd, if_pos hn]

theorem decodeQuantum_bad (dbuf : List Nat) (c : Nat) (src : GoStr)
    (hd : ¬ decodeMap c ≠ 0xFF) (hn : ¬ isNewline c = true) (hp : c ≠ padChar) :
    decodeQuantum dbuf (c :: src) = ⟨src, [], true⟩ := by
  rw [decodeQuantum, if_neg hd, if_neg hn, if_pos hp]

theorem decodeQuantum_pad (dbuf : List Nat) (c : Nat) (src : GoStr)
    (hd : ¬ decodeMap c ≠ 0xFF) (hn : ¬ isNewline c = true) (hp : ¬ c ≠ padChar) :
    decodeQuantum dbuf (c :: src) =
      match dbuf.length with
      | 0 => ⟨src, [], true⟩
      | 1 => ⟨src, [], true⟩
      | 2 =>
        match skipNewlines src with
        | [] => ⟨[], [], true⟩
        | c2 :: src2 =>
          if c2 ≠ padChar then ⟨src2, [], true⟩
          else ⟨skipNewlines src2, quantumBytes dbuf 2, !(skipNewlines src2).isEmpty⟩
      | j => ⟨skipNewlines src, quantumBytes dbuf j, !(skipNewlines src).isEmpty⟩ := by
  rw [decodeQuantum, if_neg hd, if_neg hn, if_neg hp]

/-- What a quantum read depends on: either it fails without output, or it ends on its fourth
digit and reads the same from the input it consumed followed by anything, or it ends on
padding (or on the end of the input) and the input it consumed decodes alone, without
error, to the same bytes. -/
theorem decodeQuantum_consumed (src : GoStr) :
    ∀ dbuf,
      ((decodeQuantum dbuf src).err = true ∧ (decodeQuantum dbuf src).out = []) ∨
      (∃ consumed, src = consumed ++ (decodeQuantum dbuf src).rest ∧
        (decodeQuantum dbuf src).err = false ∧
        ∀ tail, decodeQuantum dbuf (consumed ++ tail)
          = ⟨tail, (decodeQuantum dbuf src).out, false⟩) ∨
      (∃ consumed, consumed <+: src ∧
        decodeQuantum dbuf consumed = ⟨[], (decodeQuantum dbuf src).out, false⟩ ∧
        ((decodeQuantum dbuf src).err = false →
          (decodeQuantum dbuf src).rest = [] ∧ consumed = src)) := by
  induction src with
  | nil =>
    intro dbuf
    by_cases h : dbuf.length = 0
    · right; right
      exact ⟨[], List.prefix_refl _, by simp [decodeQuantum, h], fun _ => by simp [decodeQuantum, h]⟩
    · left; simp [decodeQuantum, h]
  | cons c src ih =>
    intro dbuf
    by_cases hd : decodeMap c ≠ 0xFF
    · by_cases h4 : dbuf.length + 1 = 4
      · right; left
        refine ⟨[c], ?_, ?_, ?_⟩
        · rw [decodeQuantum_digit4 dbuf c src hd h4]; rfl
        · rw [decodeQuantum_digit4 dbuf c src hd h4]
        · intro tail
          rw [decodeQuantum_digit4 dbuf c src hd h4]
          exact decodeQuantum_digit4 dbuf c tail hd h4
      · rw [decodeQuantum_digit dbuf c src hd h4]
        rcases ih (dbuf ++ [decodeMap c]) with h | ⟨cons, h1, h2, h5⟩ | ⟨cons, h1, h2, h3⟩
        · left; exact h
        · right; left
          refine ⟨c :: cons, by rw [List.cons_append, ← h1], h2, ?_⟩
          intro tail
          rw [List.cons_append, decodeQuantum_digit dbuf c _ hd h4]
          exact h5 tail
        · right; right
          refine ⟨c :: cons, List.cons_prefix_cons.mpr ⟨rfl, h1⟩, ?_, ?_⟩
          · rw [decodeQuantum_digit dbuf c _ hd h4]; exact h2
          · intro he; exact ⟨(h3 he).1, by rw [(h3 he).2]⟩
    · by_cases hn : isNewline c = true
      · rw [decodeQuantum_newline dbuf c src hd hn]
        rcases ih dbuf with h | ⟨cons, h1, h2, h5⟩ | ⟨cons, h1, h2, h3⟩
        · left; exact h
        · right; left
          refine ⟨c :: cons, by rw [List.cons_append, ← h1], h2, ?_⟩
          intro tail
          rw [List.cons_append, decodeQuantum_newline dbuf c _ hd hn]
          exact h5 tail
        · right; right
          refine ⟨c :: cons, List.cons_prefix_cons.mpr ⟨rfl, h1⟩, ?_, ?_⟩
          · rw [decodeQuantum_newline dbuf c _ hd hn]; exact h2
          · intro he; exact ⟨(h3 he).1, by rw [(h3 he).2]⟩
      · by_cases hp : c ≠ padChar
        · left; rw [decodeQuantum_bad dbuf c src hd hn hp]; exact ⟨rfl, rfl⟩
        · have hpc : c = padChar := by simpa using hp
          have hpn : isNewline padChar = false := by decide
          rw [decodeQuantum_pad dbuf c src hd hn hp]
          obtain ⟨nl1, e1, f1⟩ := skipNewlines_split src
          rcases hl : dbuf.length with _ | _ | _ | j
          · left; exact ⟨rfl, rfl⟩
          · left; exact ⟨rfl, rfl⟩
          · simp only
            cases hs : skipNewlines src with
            | nil => left; exact ⟨rfl, rfl⟩
            | cons c2 src2 =>
              simp only
              by_cases hp2 : c2 ≠ padChar
              · left; rw [if_pos hp2]; exact ⟨rfl, rfl⟩
              · rw [if_neg hp2]
                have hp2c : c2 = padChar := by simpa using hp2
                obtain ⟨nl2, e2, f2⟩ := skipNewlines_split src2
                right; right
                refine ⟨c :: (nl1 ++ c2 :: nl2), ?_, ?_, ?_⟩
                · refine List.cons_prefix_cons.mpr ⟨rfl, ?_⟩
                  refine ⟨skipNewlines src2, ?_⟩
                  rw [e1, hs]
                  simp only [List.append_assoc, List.cons_append]
                  rw [← e2]
                · rw [decodeQuantum_pad dbuf c _ hd hn hp, hl]
                  simp only
                  have h1 : skipNewlines (nl1 ++ c2 :: nl2) = c2 :: nl2 := by
                    rw [f1, hp2c]; simp [skipNewlines, hpn]
                  have h2 : skipNewlines nl2 = [] := by
                    have := f2 []
                    simpa [skipNewlines] using this
                  rw [h1]
                  simp only [if_neg hp2, h2]
                  rfl
                · intro he
                  have hr : skipNewlines src2 = [] := by
                    simpa using he
                  refine ⟨hr, ?_⟩
                  rw [hr, List.append_nil] at e2
                  rw [e1, hs, ← e2]
          · simp only
            right; right
            refine ⟨c :: nl1, ?_, ?_, ?_⟩
            · exact List.cons_prefix_cons.mpr ⟨rfl, ⟨skipNewlines src, e1.symm⟩⟩
            · rw [decodeQuantum_pad dbuf c _ hd hn hp, hl]
              simp only
              have h2 : skipNewlines nl1 = [] := by
                have := f1 []
                simpa [skipNewlines] using this
              rw [h2]; rfl
            · intro he
              have hr : skipNewlines src = [] := by simpa using he
              refine ⟨hr, ?_⟩
              rw [hr, List.append_nil] at e1
              rw [← e1]

theorem decodeLoop_nil (n : Nat) : decodeLoop n [] = ([], false) := by
  cases n <;> simp [decodeLoop]

theorem decodeLoop_cons (n : Nat) (c : Nat) (src : GoStr) :
    decodeLoop (n + 1) (c :: src) =
      if (decodeQuantum [] (c :: src)).err then ((decodeQuantum [] (c :: src)).out, true)
      else ((decodeQuantum [] (c :: src)).out ++ (decodeLoop n (decodeQuantum [] (c :: src)).rest).1,
            (decodeLoop n (decodeQuantum [] (c :: src)).rest).2) := by
  simp [decodeLoop]

/-- The payload `DecodeString` returns, with or without an error, is the error-free decoding
of a prefix of its input. -/
theorem decodeLoop_valid_prefix (n : Nat) :
    ∀ src : GoStr, src.length ≤ n →
      ∃ pre suf, src = pre ++ suf ∧ DecodeString pre = ((decodeLoop n src).1, false) := by
  induction n with
  | zero =>
    intro src hn
    have : src = [] := List.length_eq_zero.mp (by omega)
    subst this
    exact ⟨[], [], rfl, by simp [DecodeString, decodeLoop]⟩
  | succ n ih =>
    intro src hn
    cases src with
    | nil => exact ⟨[], [], rfl, by simp [DecodeString, decodeLoop]⟩
    | cons c t =>
      have hlen := decodeQuantum_rest_le (c :: t) []
      simp only [List.length_cons, Nat.add_sub_cancel] at hlen hn
      rw [decodeLoop_cons]
      rcases decodeQuantum_consumed (c :: t) [] with ⟨he, ho⟩ | ⟨cons, h1, he, h5⟩ |
          ⟨cons, ⟨suf, h1⟩, h2, h3⟩
      · refine ⟨[], c :: t, rfl, ?_⟩
        rw [he, ho]; simp [DecodeString, decodeLoop]
      · obtain ⟨pre1, suf1, hp, hd⟩ := ih (decodeQuantum [] (c :: t)).rest (by omega)
        have hcons : cons ≠ [] := by
          intro hc
          rw [hc, List.nil_append] at h1
          have := congrArg List.length h1
          simp only [List.length_cons] at this
          omega
        obtain ⟨c1, cons1, rfl⟩ := List.exists_cons_of_ne_nil hcons
        refine ⟨(c1 :: cons1) ++ pre1, suf1, ?_, ?_⟩
        · rw [List.append_assoc, ← hp]; exact h1
        · rw [he]
          simp only [Bool.false_eq_true, if_false]
          have hq := h5 pre1
          unfold DecodeString
          simp only [List.cons_append, List.length_cons]
          rw [decodeLoop_cons]
          simp only [List.cons_append] at hq
          rw [hq]
          simp only [Bool.false_eq_true, if_false]
          have hf := decodeLoop_fuel (cons1 ++ pre1).length pre1.length pre1
            (by simp) (le_refl _)
          rw [hf]
          unfold DecodeString at hd
          rw [hd]
      · by_cases he : (decodeQuantum [] (c :: t)).err = true
        · refine ⟨cons, suf, h1.symm, ?_⟩
          rw [he]
          simp only [if_true]
          cases cons with
          | nil =>
            have : (decodeQuantum [] (c :: t)).out = [] := by
              have := congrArg Quantum.out h2
              simpa [decodeQuantum] using this.symm
            rw [this]; simp [DecodeString, decodeLoop]
          | cons c1 cons1 =>
            unfold DecodeString
            simp only [List.length_cons]
            rw [decodeLoop_cons, h2]
            simp [decodeLoop_nil]
        · have he' : (decodeQuantum [] (c :: t)).err = false := by simpa using he
          obtain ⟨hr, hc⟩ := h3 he'
          refine ⟨c :: t, [], by simp, ?_⟩
          rw [he', hr]
          unfold DecodeString
          simp only [List.length_cons]
          rw [decodeLoop_cons, he', hr]
          simp [decodeLoop_nil]

theorem DecodeString_valid_prefix (t : GoStr) :
    ∃ pre suf, t = pre ++ suf ∧ DecodeString pre = ((DecodeString t).1, false) :=
  decodeLoop_valid_prefix t.length t (le_refl _)

/-! ## Headers and `http.Error` -/

theorem Values_Add_self (h : Header) (k v : GoStr) :
    Header.Values (Header.Add h k v) k = Header.Values h k ++ [v] := by
  induction h with
  | nil => simp [Header.Add, Header.Values, List.lookup]
  | cons e rest ih =>
    obtain ⟨k', vs⟩ := e
    by_cases hk : k' = k
    · subst hk; simp [Header.Add, Header.Values, List.lookup]
    · have hk' : (k == k') = false := by simpa using fun e => hk e.symm
      simp only [Header.Values] at ih
      simp [Header.Add, Header.Values, List.lookup, hk, hk', ih]

theorem Values_Set_of_ne (h : Header) (k k' v : GoStr) (hne : k ≠ k') :
    Header.Values (Header.Set h k' v) k = Header.Values h k := by
  induction h with
  | nil =>
    have hk' : (k == k') = false := by simpa using hne
    simp [Header.Set, Header.Values, List.lookup, hk']
  | cons e rest ih =>
    obtain ⟨k'', vs⟩ := e
    simp only [Header.Values] at ih
    by_cases hk : k'' = k'
    · subst hk
      have hk' : (k == k'') = false := by simpa using hne
      simp [Header.Set, Header.Values, List.lookup, hk']
    · by_cases hkk : (k == k'') = true
      · simp [Header.Set, Header.Values, List.lookup, hk, hkk]
      · simp [Header.Set, Header.Values, List.lookup, hk, hkk, ih]

/-- A request without the header has the empty string as its value. -/
theorem Get_of_absent (h : Header) (key : GoStr) (habs : h.lookup key = none) :
    Header.Get h key = [] := by
  simp [Header.Get, Header.Values, habs]

/-- What `http.Error` leaves on a writer that has not sent its status line. -/
theorem Error_fresh (w : ResponseWriter) (msg : GoStr) (code : Nat) (hw : w.wrote = none) :
    (Error w msg code).status = some code ∧
    (∀ k, k ≠ str "Content-Type" → k ≠ str "X-Content-Type-Options" →
      (Error w msg code).sent k = Header.Values w.header k) ∧
    (Error w msg code).body = w.body ++ msg ++ str "\n" := by
  refine ⟨?_, ?_, ?_⟩
  · simp [Error, ResponseWriter.Write, ResponseWriter.WriteHeader, ResponseWriter.status, hw]
  · intro k h1 h2
    simp [Error, ResponseWriter.Write, ResponseWriter.WriteHeader, ResponseWriter.sent, hw,
      Values_Set_of_ne _ _ _ _ h1, Values_Set_of_ne _ _ _ _ h2]
  · simp [Error, ResponseWriter.Write, ResponseWriter.WriteHeader, hw]

/-- `http.Error` appends its message to the body and stores nothing under other header names,
whatever the state of the writer. -/
theorem Error_header (w : ResponseWriter) (msg : GoStr) (code : Nat) (k : GoStr)
    (h1 : k ≠ str "Content-Type") (h2 : k ≠ str "X-Content-Type-Options") :
    Header.Values (Error w msg code).header k = Header.Values w.header k := by
  cases hw : w.wrote <;>
  simp [Error, ResponseWriter.Write, ResponseWriter.WriteHeader, hw,
      Values_Set_of_ne _ _ _ _ h1, Values_Set_of_ne _ _ _ _ h2]

theorem str_Basic_space : str "Basic " = str "Basic" ++ [32] := by decide

/-- The header value has the form `Basic ` ++ t exactly when the source's test
`len(auth) != 2 || auth[0] != "Basic"` fails, and then `auth[1]` is `t`. -/
theorem auth_split (v : GoStr) :
    (∃ t, v = str "Basic " ++ t ∧ SplitN v (str " ") 2 = [str "Basic", t]) ∨
    ((¬ ∃ t, v = str "Basic " ++ t) ∧
      ((SplitN v (str " ") 2).length ≠ 2 ∨ (SplitN v (str " ") 2).getD 0 [] ≠ str "Basic")) := by
  rw [str_space]
  rcases exists_first 32 v with h | ⟨pre, post, hv, hpre⟩
  · right
    refine ⟨?_, ?_⟩
    · rintro ⟨t, ht⟩
      apply h
      rw [ht, str_Basic_space]; simp
    · left; rw [SplitN_single_of_not_mem 32 v h]; simp
  · have hs := SplitN_single_of_mem 32 pre post hpre
    rw [← hv] at hs
    by_cases hb : pre = str "Basic"
    · left
      refine ⟨post, ?_, ?_⟩
      · rw [hv, hb, str_Basic_space]; simp
      · rw [hs, hb]
    · right
      refine ⟨?_, ?_⟩
      · rintro ⟨t, ht⟩
        have hs' := SplitN_single_of_mem 32 (str "Basic") t (by decide)
        rw [str_Basic_space, List.append_assoc] at ht
        simp only [List.singleton_append] at ht
        rw [← ht, hs] at hs'
        simp at hs'
        exact hb hs'.1
      · right; rw [hs]; simpa using hb

/-! ## The branches of `basicAuth` -/

/-- The value is not `Basic ` ++ t exactly when the source's test
`len(auth) != 2 || auth[0] != "Basic"` holds. -/
theorem not_Basic_iff (v : GoStr) :
    (¬ ∃ t, v = str "Basic " ++ t) ↔
      ((SplitN v (str " ") 2).length ≠ 2 ∨ (SplitN v (str " ") 2).getD 0 [] ≠ str "Basic") := by
  constructor
  · intro hn
    rcases auth_split v with ⟨t, ht, _⟩ | ⟨_, hc⟩
    · exact absurd ⟨t, ht⟩ hn
    · exact hc
  · rintro hc ⟨t, ht⟩
    rcases auth_split v with ⟨t', _, hs⟩ | ⟨hn, _⟩
    · rw [hs] at hc; simp at hc
    · exact hn ⟨t, ht⟩

/-- The branch `len(auth) != 2 || auth[0] != "Basic"` of `basicAuth`. -/
theorem basicAuth_challenge (pass : HandlerFunc) (validator : Validator) (r : Request) (s : World)
    (h : ¬ ∃ t, Header.Get r.Header (str "Proxy-Authorization") = str "Basic " ++ t) :
    basicAuth pass validator r s =
      ⟨Error ⟨Header.Add s.w.header (str "Proxy-Authenticate")
          (str "Basic realm=Need Username and Password"), s.w.wrote, s.w.body⟩
        (str "require basic proxy auth") StatusProxyAuthRequired, s.log⟩ := by
  rcases auth_split (Header.Get r.Header (str "Proxy-Authorization")) with ⟨t, ht, _⟩ | ⟨_, hc⟩
  · exact absurd ⟨t, ht⟩ h
  · unfold basicAuth
    simp only [if_pos hc]

/-- Every payload either lacks `:` or is cut by the source's `SplitN(payload, ":", 2)` at its
first `:`. -/
theorem pair_split (payload : GoStr) :
    (':'.toNat ∉ payload ∧ SplitN payload (str ":") 2 = [payload]) ∨
    (∃ u p, payload = u ++ str ":" ++ p ∧ ':'.toNat ∉ u ∧ SplitN payload (str ":") 2 = [u, p]) := by
  rw [str_colon]
  rcases exists_first 58 payload with h | ⟨u, p, hv, hu⟩
  · left; exact ⟨h, SplitN_single_of_not_mem 58 payload h⟩
  · right
    refine ⟨u, p, by simpa using hv, hu, ?_⟩
    rw [hv]; exact SplitN_single_of_mem 58 u p hu

/-- The decoding branch of `basicAuth` when the payload has no `:`. -/
theorem basicAuth_no_colon (pass : HandlerFunc) (validator : Validator) (r : Request) (s : World)
    (t : GoStr) (ht : Header.Get r.Header (str "Proxy-Authorization") = str "Basic " ++ t)
    (hc : ':'.toNat ∉ (DecodeString t).1) :
    basicAuth pass validator r s =
      ⟨Error s.w (str "authorization failed") StatusForbidden, s.log⟩ := by
  rcases auth_split (Header.Get r.Header (str "Proxy-Authorization")) with ⟨t', ht', hs⟩ | ⟨hn, _⟩
  · have htt : t' = t := by rw [ht] at ht'; exact (List.append_cancel_left ht').symm
    subst htt
    rcases pair_split (DecodeString t').1 with ⟨_, hp⟩ | ⟨u, p, hpay, _, _⟩
    · unfold basicAuth
      simp [hs, hp]
    · exfalso; apply hc; rw [hpay, str_colon]; simp
  · exact absurd ⟨t, ht⟩ hn

/-- The decoding branch of `basicAuth` when the payload is `u:p` with no `:` in `u`. -/
theorem basicAuth_pair (pass : HandlerFunc) (validator : Validator) (r : Request) (s : World)
    (t u p : GoStr) (ht : Header.Get r.Header (str "Proxy-Authorization") = str "Basic " ++ t)
    (hpay : (DecodeString t).1 = u ++ str ":" ++ p) (hu : ':'.toNat ∉ u) :
    basicAuth pass validator r s =
      if (validator u p s.log).1 then pass r ⟨s.w, (validator u p s.log).2⟩
      else ⟨Error s.w (str "authorization failed") StatusForbidden, (validator u p s.log).2⟩ := by
  rcases auth_split (Header.Get r.Header (str "Proxy-Authorization")) with ⟨t', ht', hs⟩ | ⟨hn, _⟩
  · have htt : t' = t := by rw [ht] at ht'; exact (List.append_cancel_left ht').symm
    subst htt
    have hp : SplitN (DecodeString t').1 (str ":") 2 = [u, p] := by
      rw [hpay, str_colon]
      simpa using SplitN_single_of_mem 58 u p hu
    unfold basicAuth
    cases hv : (validator u p s.log).1 <;> simp [hs, hp, hv]
  · exact absurd ⟨t, ht⟩ hn

/-! ## The claims about the handlers -/

theorem useBasicAuth_iff (o : Options) :
    useBasicAuth o = true ↔ o.authUsername ≠ [] ∧ o.authPassword ≠ [] := by
  simp [useBasicAuth]

theorem useHttps_iff (o : Options) :
    useHttps o = true ↔ o.certFile ≠ [] ∧ o.keyFile ≠ [] ∧ o.httpsPort ≠ [] := by
  simp [useHttps, and_assoc]

/-- With the gate installed, `main`'s handler is the gate behind the logger. -/
theorem mainHandler_gated (o : Options) (hA : useBasicAuth o = true) (q : HandlerFunc)
    (r : Request) (s : World) :
    mainHandler o q r s =
      basicAuth q (credentialValidator o) r ⟨s.w, s.log ++ [requestLine r]⟩ := by
  unfold mainHandler logRequest
  rw [hA]; rfl

/-- What the handler `main` builds does with both credentials non-empty, in terms of the
bytes `DecodeString` returns whether or not it reports an error (the source drops the error):
the request is handed to the proxy engine exactly when the `Proxy-Authorization` value is
`Basic ` followed by a token whose returned bytes, cut at the first `:`, are the configured
username and password; otherwise the outcome does not depend on the engine and, on a writer
that has not sent its status line, the answer is 407 or 403. -/
theorem mainHandler_by_returned_bytes (o : Options) (proxy : HandlerFunc)
    (r : Request) (s : World) (hu : o.authUsername ≠ []) (hp : o.authPassword ≠ []) :
    ((∃ t u p, Header.Get r.Header (str "Proxy-Authorization") = str "Basic " ++ t ∧
        (DecodeString t).1 = u ++ str ":" ++ p ∧ ':'.toNat ∉ u ∧
        u = o.authUsername ∧ p = o.authPassword) →
      mainHandler o proxy r s = proxy r ⟨s.w, s.log ++ [requestLine r]⟩) ∧
    ((¬ ∃ t u p, Header.Get r.Header (str "Proxy-Authorization") = str "Basic " ++ t ∧
        (DecodeString t).1 = u ++ str ":" ++ p ∧ ':'.toNat ∉ u ∧
        u = o.authUsername ∧ p = o.authPassword) →
      (∀ proxy' : HandlerFunc, mainHandler o proxy' r s = mainHandler o proxy r s) ∧
      (s.w.wrote = none →
        (mainHandler o proxy r s).w.status = some 407 ∨
        (mainHandler o proxy r s).w.status = some 403)) := by
  have hA : useBasicAuth o = true := (useBasicAuth_iff o).2 ⟨hu, hp⟩
  have hm := mainHandler_gated o hA
  refine ⟨?_, ?_⟩
  · rintro ⟨t, u, p, ht, hpay, hc, hU, hP⟩
    rw [hm, basicAuth_pair _ _ r _ t u p ht hpay hc]
    simp [credentialValidator, hU, hP]
  · intro hn
    rcases auth_split (Header.Get r.Header (str "Proxy-Authorization")) with ⟨t, ht, _⟩ | ⟨hnb, _⟩
    · rcases pair_split (DecodeString t).1 with ⟨hc, _⟩ | ⟨u, p, hpay, hc, _⟩
      · refine ⟨?_, ?_⟩
        · intro q
          rw [hm, hm, basicAuth_no_colon _ _ r _ t ht hc, basicAuth_no_colon _ _ r _ t ht hc]
        · intro hfresh
          right
          rw [hm, basicAuth_no_colon _ _ r _ t ht hc]
          exact (Error_fresh s.w _ _ hfresh).1
      · have hv : (credentialValidator o u p (s.log ++ [requestLine r])).1 = false := by
          cases hv : (credentialValidator o u p (s.log ++ [requestLine r])).1 with
          | false => rfl
          | true =>
            exfalso
            simp only [credentialValidator, Bool.and_eq_true, beq_iff_eq] at hv
            exact hn ⟨t, u, p, ht, hpay, hc, hv.1, hv.2⟩
        refine ⟨?_, ?_⟩
        · intro q
          rw [hm, hm, basicAuth_pair _ _ r _ t u p ht hpay hc,
            basicAuth_pair _ _ r _ t u p ht hpay hc]
          simp only [hv, Bool.false_eq_true, if_false]
        · intro hfresh
          right
          rw [hm, basicAuth_pair _ _ r _ t u p ht hpay hc]
          simp only [hv, Bool.false_eq_true, if_false]
          exact (Error_fresh s.w _ _ hfresh).1
    · refine ⟨?_, ?_⟩
      · intro q
        rw [hm, hm, basicAuth_challenge _ _ r _ hnb, basicAuth_challenge _ _ r _ hnb]
      · intro hfresh
        left
        rw [hm, basicAuth_challenge _ _ r _ hnb]
        exact (Error_fresh ⟨Header.Add s.w.header (str "Proxy-Authenticate")
          (str "Basic realm=Need Username and Password"), s.w.wrote, s.w.body⟩
          (str "require basic proxy auth") StatusProxyAuthRequired hfresh).1

/-- **C1, the code at the failing input.** With `auth-username=u` and `auth-password=p` the
gate is installed, and `dTpw!` is not base64: `DecodeString` reports an error for it, so it
is no token whose base64-decoded payload gives the configured credentials. Yet the bytes
returned with the error are `u:p`, the source drops the error, and the handler `main` builds
hands the request `Proxy-Authorization: Basic dTpw!` to the proxy engine, for every engine
and every world; with the stand-in engine the response is its 200, not the gate's 403. -/
theorem C1_malformed_token_reaches_engine :
    useBasicAuth authOptions = true ∧
    (DecodeString (str "dTpw!")).2 = true ∧
    (∀ (proxy : HandlerFunc) (s : World),
      mainHandler authOptions proxy (getRequest [str "Basic dTpw!"]) s =
        proxy (getRequest [str "Basic dTpw!"])
          ⟨s.w, s.log ++ [requestLine (getRequest [str "Basic dTpw!"])]⟩) ∧
    (mainHandler authOptions helloEngine (getRequest [str "Basic dTpw!"])
        freshWorld).w.status = some 200 := by
  refine ⟨by decide, by decide, ?_, by decide⟩
  intro proxy s
  exact (mainHandler_by_returned_bytes authOptions proxy (getRequest [str "Basic dTpw!"]) s
    (by decide) (by decide)).1
    ⟨str "dTpw!", str "u", str "p", by decide, by decide, by decide, by decide, by decide⟩

/-- **C2.** For every wrapped handler, every validator and every request whose
`Proxy-Authorization` header is absent or empty (`Header.Get` returns `""`), `basicAuth` adds
`Proxy-Authenticate: Basic realm=Need Username and Password` to the response headers and calls
`http.Error(w, "require basic proxy auth", 407)`, nothing else: the log is left alone and the
outcome is the same whatever the handler and the validator are, so neither is invoked. On a
writer that has not yet sent its status line the response therefore has status 407, carries
`Proxy-Authenticate: Basic realm=<realm>` with a non-empty realm, and the diagnostic body is
written. -/
theorem C2_missing_header_challenge (pass : HandlerFunc) (validator : Validator) (r : Request)
    (s : World) (hget : Header.Get r.Header (str "Proxy-Authorization") = []) :
    basicAuth pass validator r s =
      ⟨Error ⟨Header.Add s.w.header (str "Proxy-Authenticate")
          (str "Basic realm=Need Username and Password"), s.w.wrote, s.w.body⟩
        (str "require basic proxy auth") 407, s.log⟩ ∧
    (∀ (pass' : HandlerFunc) (validator' : Validator),
      basicAuth pass' validator' r s = basicAuth pass validator r s) ∧
    (s.w.wrote = none →
      (basicAuth pass validator r s).w.status = some 407 ∧
      (∃ realm : GoStr, realm ≠ [] ∧
        (basicAuth pass validator r s).w.sent (str "Proxy-Authenticate") =
          Header.Values s.w.header (str "Proxy-Authenticate") ++ [str "Basic realm=" ++ realm]) ∧
      (basicAuth pass validator r s).w.body = s.w.body ++ str "require basic proxy auth\n") := by
  have hn : ¬ ∃ t, Header.Get r.Header (str "Proxy-Authorization") = str "Basic " ++ t := by
    rintro ⟨t, ht⟩
    rw [hget, str_Basic_space] at ht
    simp at ht
  refine ⟨basicAuth_challenge pass validator r s hn, ?_, ?_⟩
  · intro pass' validator'
    rw [basicAuth_challenge pass validator r s hn, basicAuth_challenge pass' validator' r s hn]
  · intro hfresh
    have hE := Error_fresh ⟨Header.Add s.w.header (str "Proxy-Authenticate")
      (str "Basic realm=Need Username and Password"), s.w.wrote, s.w.body⟩
      (str "require basic proxy auth") StatusProxyAuthRequired hfresh
    rw [basicAuth_challenge pass validator r s hn]
    refine ⟨hE.1, ⟨str "Need Username and Password", by decide, ?_⟩, ?_⟩
    · have := hE.2.1 (str "Proxy-Authenticate") (by decide) (by decide)
      simp only [Values_Add_self] at this
      rw [this]
      congr 1
    · have := hE.2.2
      simpa using this

/-- A request without any header on a fresh writer is answered 407 with the challenge. -/
theorem C2_missing_header_challenge_witness :
    (basicAuth helloEngine (credentialValidator authOptions) (getRequest []) freshWorld).w.status
      = some 407 ∧
    (basicAuth helloEngine (credentialValidator authOptions) (getRequest []) freshWorld).w.sent
      (str "Proxy-Authenticate") = [str "Basic realm=Need Username and Password"] := by
  have h := (C2_missing_header_challenge helloEngine (credentialValidator authOptions)
    (getRequest []) freshWorld (by decide)).2.2 (by decide)
  exact ⟨h.1, by decide⟩

/-- **C3, counterexample.** The three-token value `Basic a b`, which the claim lists as not of
the form `Basic <b64>`, is not answered 407: `SplitN(.., " ", 2)` cuts it into `Basic` and
`a b`, the payload decoded from `a b` is empty, and the answer is 403 without a
`Proxy-Authenticate` header. -/
theorem C3_three_tokens_answered_403 :
    (basicAuth helloEngine (credentialValidator authOptions) (getRequest [str "Basic a b"])
        freshWorld).w.status = some 403 ∧
    (basicAuth helloEngine (credentialValidator authOptions) (getRequest [str "Basic a b"])
        freshWorld).w.sent (str "Proxy-Authenticate") = [] := by
  decide

/-- **C3, amended.** When the `Proxy-Authorization` value is not `Basic ` followed by some `t`
(it has no space, or the part before its first space is not exactly `Basic`: `basic dTpw`,
`Bearer x`, `Basic`, a tab-separated `Basic<TAB>dTpw`), `basicAuth` adds
`Proxy-Authenticate: Basic realm=Need Username and Password` and calls `http.Error(.., 407)`,
invoking neither the handler nor the validator; on a writer that has not sent its status line
the response has status 407 and carries that header. When the value is `Basic ` followed by
any `t` (also one with further spaces), the gate does not challenge: it calls
`http.Error(.., 403)`, which on such a writer gives status 403 and no `Proxy-Authenticate`
header of the gate, or it hands the request to the wrapped handler. -/
theorem C3_challenge_iff_no_Basic_before_first_space (pass : HandlerFunc) (validator : Validator)
    (r : Request) (s : World) :
    ((¬ ∃ t, Header.Get r.Header (str "Proxy-Authorization") = str "Basic " ++ t) →
      basicAuth pass validator r s =
        ⟨Error ⟨Header.Add s.w.header (str "Proxy-Authenticate")
            (str "Basic realm=Need Username and Password"), s.w.wrote, s.w.body⟩
          (str "require basic proxy auth") 407, s.log⟩ ∧
      (∀ (pass' : HandlerFunc) (validator' : Validator),
        basicAuth pass' validator' r s = basicAuth pass validator r s) ∧
      (s.w.wrote = none →
        (basicAuth pass validator r s).w.status = some 407 ∧
        (basicAuth pass validator r s).w.sent (str "Proxy-Authenticate") =
          Header.Values s.w.header (str "Proxy-Authenticate") ++
            [str "Basic realm=Need Username and Password"])) ∧
    (∀ t, Header.Get r.Header (str "Proxy-Authorization") = str "Basic " ++ t →
      ((∃ log, basicAuth pass validator r s =
          ⟨Error s.w (str "authorization failed") 403, log⟩) ∧
        (s.w.wrote = none →
          (basicAuth pass validator r s).w.status = some 403 ∧
          (basicAuth pass validator r s).w.sent (str "Proxy-Authenticate") =
            Header.Values s.w.header (str "Proxy-Authenticate"))) ∨
      (∃ u p, basicAuth pass validator r s = pass r ⟨s.w, (validator u p s.log).2⟩)) := by
  refine ⟨?_, ?_⟩
  · intro hn
    refine ⟨basicAuth_challenge pass validator r s hn, ?_, ?_⟩
    · intro pass' validator'
      rw [basicAuth_challenge pass validator r s hn, basicAuth_challenge pass' validator' r s hn]
    · intro hfresh
      have hE := Error_fresh ⟨Header.Add s.w.header (str "Proxy-Authenticate")
        (str "Basic realm=Need Username and Password"), s.w.wrote, s.w.body⟩
        (str "require basic proxy auth") StatusProxyAuthRequired hfresh
      rw [basicAuth_challenge pass validator r s hn]
      refine ⟨hE.1, ?_⟩
      have := hE.2.1 (str "Proxy-Authenticate") (by decide) (by decide)
      simp only [Values_Add_self] at this
      exact this
  · intro t ht
    rcases pair_split (DecodeString t).1 with ⟨hc, _⟩ | ⟨u, p, hpay, hu, _⟩
    · left
      rw [basicAuth_no_colon pass validator r s t ht hc]
      refine ⟨⟨s.log, rfl⟩, ?_⟩
      intro hfresh
      have hE := Error_fresh s.w (str "authorization failed") StatusForbidden hfresh
      exact ⟨hE.1, hE.2.1 _ (by decide) (by decide)⟩
    · rw [basicAuth_pair pass validator r s t u p ht hpay hu]
      cases hv : (validator u p s.log).1
      · left
        simp only [Bool.false_eq_true, if_false]
        refine ⟨⟨_, rfl⟩, ?_⟩
        intro hfresh
        have hE := Error_fresh s.w (str "authorization failed") StatusForbidden hfresh
        exact ⟨hE.1, hE.2.1 _ (by decide) (by decide)⟩
      · right
        exact ⟨u, p, by simp⟩

/-- The claim's own examples `basic dTpw`, `Bearer x` and `Basic`, and a tab-separated value,
are answered 407. -/
theorem C3_challenge_iff_no_Basic_before_first_space_witness :
    (basicAuth helloEngine (credentialValidator authOptions) (getRequest [str "basic dTpw"])
        freshWorld).w.status = some 407 ∧
    (basicAuth helloEngine (credentialValidator authOptions) (getRequest [str "Bearer x"])
        freshWorld).w.status = some 407 ∧
    (basicAuth helloEngine (credentialValidator authOptions) (getRequest [str "Basic"])
        freshWorld).w.status = some 407 ∧
    (basicAuth helloEngine (credentialValidator authOptions) (getRequest [str "Basic\tdTpw"])
        freshWorld).w.status = some 407 :=
  ⟨(((C3_challenge_iff_no_Basic_before_first_space helloEngine (credentialValidator authOptions)
      (getRequest [str "basic dTpw"]) freshWorld).1
      ((not_Basic_iff _).2 (by decide))).2.2 (by decide)).1,
   (((C3_challenge_iff_no_Basic_before_first_space helloEngine (credentialValidator authOptions)
      (getRequest [str "Bearer x"]) freshWorld).1
      ((not_Basic_iff _).2 (by decide))).2.2 (by decide)).1,
   (((C3_challenge_iff_no_Basic_before_first_space helloEngine (credentialValidator authOptions)
      (getRequest [str "Basic"]) freshWorld).1
      ((not_Basic_iff _).2 (by decide))).2.2 (by decide)).1,
   (((C3_challenge_iff_no_Basic_before_first_space helloEngine (credentialValidator authOptions)
      (getRequest [str "Basic\tdTpw"]) freshWorld).1
      ((not_Basic_iff _).2 (by decide))).2.2 (by decide)).1⟩

/-- **C4, the code at the failing input.** `dTpw!` is not valid base64 (`DecodeString` reports
an error), yet it returns the payload `u:p` decoded from the valid prefix `dTpw`; the source
drops the error, so with the credentials `u`/`p` configured the request
`Proxy-Authorization: Basic dTpw!` is handed to the wrapped handler unchanged instead of being
answered 403. -/
theorem C4_malformed_token_reaches_handler :
    DecodeString (str "dTpw!") = (str "u:p", true) ∧
    (∀ (pass : HandlerFunc) (s : World),
      basicAuth pass (credentialValidator authOptions) (getRequest [str "Basic dTpw!"]) s =
        pass (getRequest [str "Basic dTpw!"]) s) ∧
    (basicAuth helloEngine (credentialValidator authOptions) (getRequest [str "Basic dTpw!"])
        freshWorld).w.status = some 200 := by
  refine ⟨by decide, ?_, by decide⟩
  intro pass s
  have h := basicAuth_pair pass (credentialValidator authOptions) (getRequest [str "Basic dTpw!"]) s
    (str "dTpw!") (str "u") (str "p") (by decide) (by decide) (by decide)
  rw [h]
  simp [credentialValidator, authOptions]

/-- **C5.** For a request whose `Proxy-Authorization` value is `Basic ` followed by `t`, with
`t` valid base64 decoding to `payload`: if `payload` has no `:`, `basicAuth` answers through
`http.Error(.., 403)` and the log is untouched, so the validator is not called; if `payload`
is `u:p` with no `:` in `u` (`p` may contain `:` or be empty), the validator is called once,
with `u` and `p`, and on `false` the answer is `http.Error(.., 403)`, on `true` the wrapped
handler runs. The 403 answer never involves the wrapped handler, sends status 403 on a
writer that has not sent its status line, and stores no `Proxy-Authenticate` header. -/
theorem C5_decoded_payload_split_at_first_colon (pass : HandlerFunc) (validator : Validator)
    (r : Request) (s : World) (t payload : GoStr)
    (ht : Header.Get r.Header (str "Proxy-Authorization") = str "Basic " ++ t)
    (hdec : DecodeString t = (payload, false)) :
    (':'.toNat ∉ payload →
      basicAuth pass validator r s = ⟨Error s.w (str "authorization failed") 403, s.log⟩) ∧
    (∀ u p, payload = u ++ str ":" ++ p → ':'.toNat ∉ u →
      basicAuth pass validator r s =
        if (validator u p s.log).1 then pass r ⟨s.w, (validator u p s.log).2⟩
        else ⟨Error s.w (str "authorization failed") 403, (validator u p s.log).2⟩) ∧
    (s.w.wrote = none → (Error s.w (str "authorization failed") 403).status = some 403) ∧
    Header.Values (Error s.w (str "authorization failed") 403).header (str "Proxy-Authenticate")
      = Header.Values s.w.header (str "Proxy-Authenticate") ∧
    (s.w.wrote = none →
      (Error s.w (str "authorization failed") 403).sent (str "Proxy-Authenticate")
        = Header.Values s.w.header (str "Proxy-Authenticate")) := by
  have hpay : (DecodeString t).1 = payload := by rw [hdec]
  refine ⟨?_, ?_, ?_, ?_, ?_⟩
  · intro hc
    exact basicAuth_no_colon pass validator r s t ht (by rw [hpay]; exact hc)
  · intro u p hp hu
    exact basicAuth_pair pass validator r s t u p ht (by rw [hpay]; exact hp) hu
  · intro hfresh
    exact (Error_fresh s.w _ _ hfresh).1
  · exact Error_header s.w _ _ _ (by decide) (by decide)
  · intro hfresh
    exact (Error_fresh s.w _ _ hfresh).2.1 _ (by decide) (by decide)

/-- Scenario 3 of the specification: `Basic dTpx` decodes to `u:q` and is answered 403. -/
theorem C5_decoded_payload_split_at_first_colon_witness :
    basicAuth helloEngine (credentialValidator authOptions) (getRequest [str "Basic dTpx"])
      freshWorld = ⟨Error freshWorld.w (str "authorization failed") 403, []⟩ ∧
    (Error freshWorld.w (str "authorization failed") 403).status = some 403 :=
  have h := C5_decoded_payload_split_at_first_colon helloEngine (credentialValidator authOptions)
    (getRequest [str "Basic dTpx"]) freshWorld (str "dTpx") (str "u:q") (by decide) (by decide)
  ⟨(h.2.1 (str "u") (str "q") (by decide) (by decide)).trans (by decide), h.2.2.1 (by decide)⟩

/-- **C6.** For every byte string `u` without `:`, every byte string `p` and every validator
that accepts `(u, p)`, a request whose `Proxy-Authorization` value is `Basic ` followed by the
standard base64 encoding of `u:p` makes `basicAuth` call the validator once and then run the
wrapped handler once, on the same request and on the response writer exactly as the gate
received it: the gate writes no status, header or body; with a validator that has no effect
the whole gate is the wrapped handler. -/
theorem C6_valid_credentials_reach_handler (pass : HandlerFunc) (validator : Validator)
    (r : Request) (s : World) (u p : GoStr) (hu : IsBytes u) (hp : IsBytes p)
    (hcolon : ':'.toNat ∉ u)
    (hget : Header.Get r.Header (str "Proxy-Authorization")
      = str "Basic " ++ EncodeToString (u ++ str ":" ++ p))
    (hV : (validator u p s.log).1 = true) :
    basicAuth pass validator r s = pass r ⟨s.w, (validator u p s.log).2⟩ ∧
    ((validator u p s.log).2 = s.log → basicAuth pass validator r s = pass r s) := by
  have hb : IsBytes (u ++ str ":" ++ p) := by
    intro b hm
    simp only [List.mem_append] at hm
    rcases hm with (hm | hm) | hm
    · exact hu b hm
    · rw [str_colon] at hm; simp at hm; omega
    · exact hp b hm
  have hdec := DecodeString_EncodeToString _ hb
  have h := basicAuth_pair pass validator r s _ u p hget (by rw [hdec]) hcolon
  rw [hV] at h
  simp only [if_true] at h
  refine ⟨h, ?_⟩
  intro hlog
  rw [h, hlog]

/-- With `u`/`p` configured, `Basic dTpw` makes the gate behave as the wrapped handler. -/
theorem C6_valid_credentials_reach_handler_witness :
    basicAuth helloEngine (credentialValidator authOptions) (getRequest [str "Basic dTpw"])
      freshWorld = helloEngine (getRequest [str "Basic dTpw"]) freshWorld :=
  (C6_valid_credentials_reach_handler helloEngine (credentialValidator authOptions)
    (getRequest [str "Basic dTpw"]) freshWorld (str "u") (str "p") (by unfold IsBytes; decide)
    (by unfold IsBytes; decide) (by decide) (by decide) (by decide)).2 (by decide)

/-- **C9.** `logRequest(h)` hands the logger exactly one message,
`<RemoteAddr> <Method> <URL>` and a newline, and then runs `h` once on the same request and
the untouched response writer. In the pipeline `main` builds, the gate (when installed) or
the proxy engine therefore runs after the line is logged, and every request ends in one of
two ways: it is handed to the proxy engine with that one line logged, or the gate answers it
(407 or 403) without the engine and the log holds exactly that one new line. -/
theorem C9_one_log_line_before_delegation (o : Options) (proxy handler : HandlerFunc)
    (r : Request) (s : World) :
    logRequest handler r s = handler r ⟨s.w, s.log ++ [requestLine r]⟩ ∧
    requestLine r = r.RemoteAddr ++ str " " ++ r.Method ++ str " " ++ r.URL ++ str "\n" ∧
    mainHandler o proxy r s =
      (if useBasicAuth o then basicAuth proxy (credentialValidator o) else proxy) r
        ⟨s.w, s.log ++ [requestLine r]⟩ ∧
    (mainHandler o proxy r s = proxy r ⟨s.w, s.log ++ [requestLine r]⟩ ∨
      ((mainHandler o proxy r s).log = s.log ++ [requestLine r] ∧
        ∀ proxy' : HandlerFunc, mainHandler o proxy' r s = mainHandler o proxy r s)) := by
  have hm : ∀ q : HandlerFunc, mainHandler o q r s =
      (if useBasicAuth o then basicAuth q (credentialValidator o) else q) r
        ⟨s.w, s.log ++ [requestLine r]⟩ := by
    intro q
    unfold mainHandler logRequest
    cases useBasicAuth o <;> rfl
  refine ⟨rfl, rfl, hm proxy, ?_⟩
  cases hA : useBasicAuth o with
  | false => left; rw [hm, hA]; rfl
  | true =>
    have hm' : ∀ q : HandlerFunc, mainHandler o q r s =
        basicAuth q (credentialValidator o) r ⟨s.w, s.log ++ [requestLine r]⟩ := by
      intro q; rw [hm, hA]; rfl
    rcases auth_split (Header.Get r.Header (str "Proxy-Authorization")) with ⟨t, ht, _⟩ | ⟨hn, _⟩
    · rcases pair_split (DecodeString t).1 with ⟨hc, _⟩ | ⟨u, p, hpay, hu, _⟩
      · right
        refine ⟨?_, ?_⟩
        · rw [hm', basicAuth_no_colon _ _ r _ t ht hc]
        · intro q; rw [hm', hm', basicAuth_no_colon _ _ r _ t ht hc,
            basicAuth_no_colon _ _ r _ t ht hc]
      · cases hv : (credentialValidator o u p (s.log ++ [requestLine r])).1 with
        | true =>
          left
          rw [hm', basicAuth_pair _ _ r _ t u p ht hpay hu]
          simp only [hv, if_true]
          rfl
        | false =>
          right
          refine ⟨?_, ?_⟩
          · rw [hm', basicAuth_pair _ _ r _ t u p ht hpay hu]
            simp only [hv, Bool.false_eq_true, if_false]
            rfl
          · intro q
            rw [hm', hm', basicAuth_pair _ _ r _ t u p ht hpay hu,
              basicAuth_pair _ _ r _ t u p ht hpay hu]
            simp only [hv, Bool.false_eq_true, if_false]
    · right
      refine ⟨?_, ?_⟩
      · rw [hm', basicAuth_challenge _ _ r _ hn]
      · intro q; rw [hm', hm', basicAuth_challenge _ _ r _ hn, basicAuth_challenge _ _ r _ hn]

/-- **X1.** In the handler `main` builds with both credentials non-empty, the proxy engine is
reached only by a request whose `Proxy-Authorization` value is `Basic ` followed by a token of
which some prefix decodes, without error, to `auth-username:auth-password`: the decode error
the source drops lets trailing garbage through, but never a token that does not start with
the valid encoding of the configured credentials. Every other request has an outcome that
does not depend on the engine. -/
theorem X1_engine_reached_only_through_valid_prefix (o : Options) (proxy : HandlerFunc)
    (r : Request) (s : World) (hu : o.authUsername ≠ []) (hp : o.authPassword ≠ []) :
    (∃ pre suf, Header.Get r.Header (str "Proxy-Authorization") = str "Basic " ++ (pre ++ suf) ∧
        DecodeString pre = (o.authUsername ++ str ":" ++ o.authPassword, false) ∧
        mainHandler o proxy r s = proxy r ⟨s.w, s.log ++ [requestLine r]⟩) ∨
    (∀ proxy' : HandlerFunc, mainHandler o proxy' r s = mainHandler o proxy r s) := by
  have hA : useBasicAuth o = true := (useBasicAuth_iff o).2 ⟨hu, hp⟩
  have hm := mainHandler_gated o hA
  rcases auth_split (Header.Get r.Header (str "Proxy-Authorization")) with ⟨t, ht, _⟩ | ⟨hnb, _⟩
  · rcases pair_split (DecodeString t).1 with ⟨hc, _⟩ | ⟨u, p, hpay, hc, _⟩
    · right
      intro q
      rw [hm, hm, basicAuth_no_colon _ _ r _ t ht hc, basicAuth_no_colon _ _ r _ t ht hc]
    · cases hv : (credentialValidator o u p (s.log ++ [requestLine r])).1 with
      | false =>
        right
        intro q
        rw [hm, hm, basicAuth_pair _ _ r _ t u p ht hpay hc,
          basicAuth_pair _ _ r _ t u p ht hpay hc]
        simp only [hv, Bool.false_eq_true, if_false]
      | true =>
        left
        have hv' := hv
        simp only [credentialValidator, Bool.and_eq_true, beq_iff_eq] at hv'
        obtain ⟨pre, suf, hts, hd⟩ := DecodeString_valid_prefix t
        refine ⟨pre, suf, by rw [← hts]; exact ht, ?_, ?_⟩
        · rw [hd, hpay, hv'.1, hv'.2]
        · rw [hm, basicAuth_pair _ _ r _ t u p ht hpay hc]
          simp only [hv, if_true]
          rfl
  · right
    intro q
    rw [hm, hm, basicAuth_challenge _ _ r _ hnb, basicAuth_challenge _ _ r _ hnb]

/-- At `Basic dTpw!` with `u`/`p` configured. -/
theorem X1_engine_reached_only_through_valid_prefix_witness :
    (∃ pre suf, str "Basic dTpw!" = str "Basic " ++ (pre ++ suf) ∧
        DecodeString pre = (str "u:p", false)) ∨
    (∀ proxy' : HandlerFunc,
      mainHandler authOptions proxy' (getRequest [str "Basic dTpw!"]) freshWorld =
        mainHandler authOptions helloEngine (getRequest [str "Basic dTpw!"]) freshWorld) := by
  rcases X1_engine_reached_only_through_valid_prefix authOptions helloEngine
    (getRequest [str "Basic dTpw!"]) freshWorld (by decide) (by decide) with
    ⟨pre, suf, h1, h2, _⟩ | h
  · left; exact ⟨pre, suf, h1, h2⟩
  · right; exact h

/-! ## The supervisor -/

theorem Inv_init (o : Options) : Inv o Sys.init := by
  constructor <;> simp [Sys.init, Sys.inFlight, MainPc.pendingAdd, Sys.goroutine, Goroutine.running, MainPc.rank]

set_option maxHeartbeats 4000000 in
theorem Inv_stepMain (o : Options) (s s1 : Sys) (hs : Inv o s) (h : step o .main s = some s1) :
    Inv o s1 := by
  obtain ⟨pc, wait, http, https, log⟩ := s
  obtain ⟨hc, hh, hhs, he, hb, hbs, hp, hps⟩ := hs
  simp only [Sys.inFlight, Sys.goroutine] at hc hh hhs he hb hbs hp hps
  cases pc <;> cases http <;> cases https <;>
    simp [MainPc.rank, MainPc.pendingAdd, Goroutine.running] at hc hh hhs he hb hbs hp hps <;>
    simp only [step, stepMain, Sys.Add] at h <;>
    (try split at h) <;>
    (try simp only [Option.some.injEq, reduceCtorEq] at h) <;>
    (try subst h) <;>
    (try (constructor <;>
      simp_all [Sys.inFlight, MainPc.pendingAdd, Sys.goroutine, Goroutine.running, MainPc.rank]))

set_option maxHeartbeats 4000000 in
theorem Inv_stepServeReturns (o : Options) (l : Listener) (err : Option GoStr) (s s1 : Sys)
    (hs : Inv o s) (h : step o (.serveReturns l err) s = some s1) : Inv o s1 := by
  obtain ⟨pc, wait, http, https, log⟩ := s
  obtain ⟨hc, hh, hhs, he, hb, hbs, hp, hps⟩ := hs
  simp only [Sys.inFlight, Sys.goroutine] at hc hh hhs he hb hbs hp hps
  cases l <;> cases pc <;> cases http <;> cases https <;>
    simp [MainPc.rank, MainPc.pendingAdd, Goroutine.running] at hc hh hhs he hb hbs hp hps <;>
    simp only [step, stepServeReturns, Sys.goroutine, Sys.setGoroutine, Sys.Add] at h <;>
    (try simp only [Option.some.injEq, reduceCtorEq] at h) <;>
    (try subst h) <;>
    (try (constructor <;>
      simp_all [Sys.inFlight, MainPc.pendingAdd, Sys.goroutine, Goroutine.running, MainPc.rank]))

set_option maxHeartbeats 4000000 in
theorem Inv_stepGoroutine (o : Options) (l : Listener) (s s1 : Sys)
    (hs : Inv o s) (h : step o (.goroutine l) s = some s1) : Inv o s1 := by
  obtain ⟨pc, wait, http, https, log⟩ := s
  obtain ⟨hc, hh, hhs, he, hb, hbs, hp, hps⟩ := hs
  simp only [Sys.inFlight, Sys.goroutine] at hc hh hhs he hb hbs hp hps
  cases l <;> cases pc <;> cases http <;> cases https <;>
    simp [MainPc.rank, MainPc.pendingAdd, Goroutine.running] at hc hh hhs he hb hbs hp hps <;>
    simp only [step, stepGoroutine, Sys.goroutine, Sys.setGoroutine, Sys.Add] at h <;>
    (try split at h) <;>
    (try simp only [Option.some.injEq, reduceCtorEq] at h) <;>
    (try subst h) <;>
    (try (constructor <;>
      simp_all [Sys.inFlight, MainPc.pendingAdd, Sys.goroutine, Goroutine.running, MainPc.rank]))

theorem Inv_step (o : Options) (a : Action) (s s1 : Sys) (hs : Inv o s) (h : step o a s = some s1) :
    Inv o s1 := by
  cases a with
  | main => exact Inv_stepMain o s s1 hs h
  | serveReturns l err => exact Inv_stepServeReturns o l err s s1 hs h
  | goroutine l => exact Inv_stepGoroutine o l s s1 hs h

theorem Inv_run (o : Options) (as : List Action) :
    ∀ s s1, Inv o s → run o as s = some s1 → Inv o s1 := by
  induction as with
  | nil => intro s s1 hs h; simp only [run, Option.some.injEq] at h; exact h ▸ hs
  | cons a as ih =>
    intro s s1 hs h
    simp only [run] at h
    cases hst : step o a s with
    | none => rw [hst] at h; simp at h
    | some s2 => rw [hst] at h; exact ih s2 s1 (Inv_step o a s s2 hs hst) h

theorem Inv_of_Reachable (o : Options) (s : Sys) (h : Reachable o s) : Inv o s := by
  obtain ⟨as, h⟩ := h
  exact Inv_run o as _ s (Inv_init o) h

/-- A listener that is not running contributes nothing to a zero counter. -/
theorem settled_of_wait_zero (o : Options) (s : Sys) (hs : Inv o s) (hw : s.wait = 0)
    (l : Listener) : s.goroutine l = .notStarted ∨ s.goroutine l = .finished := by
  have hc := hs.count
  rw [hw] at hc
  have h0 : ∀ l, s.inFlight l = 0 ∨ s.inFlight l = 1 := by
    intro l; unfold Sys.inFlight; split <;> simp
  have hl : s.inFlight l = 0 := by
    have a := h0 .http
    have b := h0 .https
    cases l <;> omega
  unfold Sys.inFlight at hl
  split at hl
  · simp at hl
  · rename_i hne
    simp only [Bool.or_eq_true, not_or, Bool.not_eq_true] at hne
    cases hg : s.goroutine l <;> simp [hg, Goroutine.running] at hne ⊢

/-- A listener that is serving gets through its return, its log line and its `wait.Done()`. -/
theorem serve_return_runs (o : Options) (s : Sys) (hs : Inv o s) (l : Listener)
    (err : Option GoStr) (hl : s.goroutine l = .serving) :
    ∃ s1, run o [.serveReturns l err, .goroutine l, .goroutine l] s = some s1 ∧
      s1.goroutine l = .finished ∧ s1.wait = s.wait - 1 ∧ s1.pc = s.pc ∧
      (∀ l1, l1 ≠ l → s1.goroutine l1 = s.goroutine l1) ∧
      s1.log = s.log ++ errLines err := by
  have h0 : ∀ l, 0 ≤ s.inFlight l := by
    intro l; unfold Sys.inFlight; split <;> simp
  have h1 : s.inFlight l = 1 := by
    unfold Sys.inFlight; simp [hl, Goroutine.running]
  have hw : 1 ≤ s.wait := by
    have hc := hs.count
    have a := h0 .http
    have b := h0 .https
    cases l <;> omega
  have hpc : ∀ c, s.pc ≠ .exited c := by
    intro c hc
    have := (hs.exit c hc).2
    omega
  have hneg : ¬ (s.wait + -1 < 0) := by omega
  obtain ⟨pc, wait, http, https, log⟩ := s
  simp only at hw hpc hneg
  cases l <;> simp only [Sys.goroutine] at hl <;> subst hl <;> cases err <;> cases pc <;>
    first
    | exact absurd rfl (hpc _)
    | (simp [run, step, stepServeReturns, stepGoroutine, Sys.goroutine, Sys.setGoroutine, Sys.Add,
        errLines, hneg]
       exact ⟨by omega, fun l1 hl1 => by cases l1 <;> simp at hl1 ⊢⟩)

/-- A step of a listener's goroutine changes neither `main` nor the other listener. -/
theorem listener_step_local (o : Options) (s : Sys) (hs : Inv o s) (l : Listener) (a : Action)
    (ha : (∃ err, a = .serveReturns l err) ∨ a = .goroutine l) (s1 : Sys)
    (h : step o a s = some s1) :
    s1.pc = s.pc ∧ ∀ l1, l1 ≠ l → s1.goroutine l1 = s.goroutine l1 := by
  have h0 : ∀ l, 0 ≤ s.inFlight l := by
    intro l; unfold Sys.inFlight; split <;> simp
  have hw : s.goroutine l = .beforeDone → ¬ (s.wait + -1 < 0) := by
    intro hl
    have h1 : s.inFlight l = 1 := by
      unfold Sys.inFlight; simp [hl, Goroutine.running]
    have hc := hs.count
    have a := h0 .http
    have b := h0 .https
    cases l <;> omega
  obtain ⟨pc, wait, http, https, log⟩ := s
  rcases ha with ⟨err, rfl⟩ | rfl
  · cases l <;> cases pc <;>
      simp only [step, stepServeReturns, Sys.goroutine, Sys.setGoroutine] at h <;>
      (try split at h) <;>
      (try simp only [Option.some.injEq, reduceCtorEq] at h) <;>
      (try subst h) <;>
      (try exact ⟨rfl, fun l1 hl1 => by cases l1 <;> simp [Sys.goroutine] at hl1 ⊢⟩)
  · cases l <;> cases pc <;>
      simp only [step, stepGoroutine, Sys.goroutine, Sys.setGoroutine, Sys.Add] at h hw <;>
      (try split at h) <;>
      (try simp only [Option.some.injEq, reduceCtorEq] at h) <;>
      (try subst h) <;>
      (try simp only [if_neg (hw rfl)]) <;>
      (first
        | exact ⟨rfl, fun l1 hl1 => by cases l1 <;> simp [Sys.goroutine] at hl1 ⊢⟩
        | exact ⟨trivial, fun l1 hl1 => by cases l1 <;> simp [Sys.goroutine] at hl1 ⊢⟩
        )

/-- A property every step preserves holds along every schedule. -/
theorem run_preserves (o : Options) (P : Sys → Prop)
    (hstep : ∀ a s s1, P s → step o a s = some s1 → P s1) (as : List Action) :
    ∀ s s1, P s → run o as s = some s1 → P s1 := by
  induction as with
  | nil => intro s s1 hs h; simp only [run, Option.some.injEq] at h; exact h ▸ hs
  | cons a as ih =>
    intro s s1 hs h
    simp only [run] at h
    cases hst : step o a s with
    | none => rw [hst] at h; simp at h
    | some s2 => rw [hst] at h; exact ih s2 s1 (hstep a s s2 hs hst) h

/-- Without an enabled listener the process stays idle. -/
theorem Idle_of_Reachable (o : Options) (hport : o.httpPort = []) (htls : useHttps o = false)
    (s : Sys) (h : Reachable o s) : s.Idle := by
  obtain ⟨as, h⟩ := h
  refine run_preserves o Sys.Idle ?_ as Sys.init s (by simp [Sys.Idle, Sys.init]) h
  intro a s s1 hs hst
  obtain ⟨pc, wait, http, https, log⟩ := s
  obtain ⟨h1, h2, h3, h4, h5⟩ := hs
  simp only at h1 h2 h3 h4 h5
  subst h1 h2 h3 h4
  rcases h5 with h5 | h5 | h5 | h5 <;> subst h5 <;> rcases a with _ | ⟨l, err⟩ | l <;>
    (try cases l) <;>
    simp [step, stepMain, stepServeReturns, stepGoroutine, Sys.goroutine, hport, htls] at hst <;>
    (try subst hst) <;> (try simp [Sys.Idle])

theorem useHttps_false_of_empty (o : Options)
    (htls : o.certFile = [] ∨ o.keyFile = [] ∨ o.httpsPort = []) : useHttps o = false := by
  cases h : useHttps o with
  | false => rfl
  | true =>
    have := (useHttps_iff o).1 h
    rcases htls with h1 | h1 | h1
    · exact absurd h1 this.1
    · exact absurd h1 this.2.1
    · exact absurd h1 this.2.2

/-- **C8, counterexample.** With `port` empty and the TLS options empty no listener is
enabled; `main` passes both tests, `wait.Wait()` returns at once and `main` returns: exit code
0 and an empty log. No schedule of that configuration logs anything or ends in a non-zero
exit code. -/
theorem C8_no_listener_exits_zero_without_diagnostic :
    noListenerOptions.httpPort = [] ∧ noListenerOptions.httpsPort = [] ∧
    run noListenerOptions [.main, .main, .main] Sys.init =
      some { pc := .exited 0, wait := 0, http := .notStarted, https := .notStarted, log := [] } ∧
    (∀ s, Reachable noListenerOptions s → s.log = [] ∧ ∀ c, s.pc = .exited c → c = 0) := by
  refine ⟨by decide, by decide, by decide, ?_⟩
  intro s hs
  have h := Idle_of_Reachable noListenerOptions (by decide) (by decide) s hs
  refine ⟨h.2.2.2.1, ?_⟩
  intro c hc
  rcases h.2.2.2.2 with h5 | h5 | h5 | h5 <;> rw [h5] at hc <;> simp at hc
  exact hc.symm

/-- **C8, amended.** For every configuration in which no listener is enabled (`port` empty and
at least one of `cert`, `key`, `https-port` empty), `main` starts no listener, emits no
diagnostic and returns normally: the process ends with exit code 0 after three steps of
`main`, and no reachable state has a log line, a started listener or another exit code. -/
theorem C8_no_listener_returns_normally (o : Options) (hport : o.httpPort = [])
    (htls : o.certFile = [] ∨ o.keyFile = [] ∨ o.httpsPort = []) :
    run o [.main, .main, .main] Sys.init =
      some { pc := .exited 0, wait := 0, http := .notStarted, https := .notStarted, log := [] } ∧
    (∀ s, Reachable o s →
      s.log = [] ∧ s.http = .notStarted ∧ s.https = .notStarted ∧
      ∀ c, s.pc = .exited c → c = 0) := by
  have hT := useHttps_false_of_empty o htls
  refine ⟨?_, ?_⟩
  · simp [run, step, stepMain, Sys.init, hport, hT]
  · intro s hs
    have h := Idle_of_Reachable o hport hT s hs
    refine ⟨h.2.2.2.1, h.2.1, h.2.2.1, ?_⟩
    intro c hc
    rcases h.2.2.2.2 with h5 | h5 | h5 | h5 <;> rw [h5] at hc <;> simp at hc
    exact hc.symm

/-- With `port` empty and only a certificate given, `main` returns with exit code 0. -/
theorem C8_no_listener_returns_normally_witness :
    run { defaultOptions with httpPort := [], certFile := str "cert.pem" } [.main, .main, .main]
      Sys.init =
      some { pc := .exited 0, wait := 0, http := .notStarted, https := .notStarted, log := [] } :=
  (C8_no_listener_returns_normally { defaultOptions with httpPort := [], certFile := str "cert.pem" }
    (by decide) (Or.inr (Or.inl (by decide)))).1

/-- **C10.** In every state the process can reach: the `sync.WaitGroup` counter is the number of
listeners whose `wait.Add(1)` has run and whose `wait.Done()` has not; at each `go` statement
the counter already counts the listener about to be spawned; `wait.Wait()` lets `main` go on
only when every started listener has run to its end, so once `main` has returned (exit code 0,
never a panic) no started listener is still serving; a serving listener whose serve call
returns, with an error or with nil, logs the error if there is one and executes `wait.Done()`
exactly once, lowering the counter by one; and no step of a listener's goroutine changes
`main` or the other listener. -/
theorem C10_main_waits_for_every_started_listener (o : Options) (s : Sys)
    (h : Reachable o s) :
    s.wait = s.inFlight .http + s.inFlight .https ∧
    ((s.pc = .httpGo ∨ s.pc = .httpsGo) → 1 ≤ s.wait) ∧
    (s.pc = .waiting → step o .main s ≠ none →
      ∀ l, s.goroutine l = .notStarted ∨ s.goroutine l = .finished) ∧
    (∀ c, s.pc = .exited c →
      c = 0 ∧ ∀ l, s.goroutine l = .notStarted ∨ s.goroutine l = .finished) ∧
    (∀ l err, s.goroutine l = .serving →
      ∃ s1, run o [.serveReturns l err, .goroutine l, .goroutine l] s = some s1 ∧
        s1.goroutine l = .finished ∧ s1.wait = s.wait - 1 ∧ s1.pc = s.pc ∧
        (∀ l1, l1 ≠ l → s1.goroutine l1 = s.goroutine l1) ∧
        s1.log = s.log ++ errLines err) ∧
    (∀ l a s1, ((∃ err, a = .serveReturns l err) ∨ a = .goroutine l) →
      step o a s = some s1 →
      s1.pc = s.pc ∧ ∀ l1, l1 ≠ l → s1.goroutine l1 = s.goroutine l1) ∧
    (∀ l, s.goroutine l = .finished →
      step o (.goroutine l) s = none ∧ ∀ err, step o (.serveReturns l err) s = none) := by
  have hs := Inv_of_Reachable o s h
  refine ⟨hs.count, ?_, ?_, ?_, ?_, ?_, ?_⟩
  · intro hpc
    have hc := hs.count
    have h0 : ∀ l, 0 ≤ s.inFlight l := by
      intro l; unfold Sys.inFlight; split <;> simp
    have a := h0 .http
    have b := h0 .https
    rcases hpc with hpc | hpc
    · have : s.inFlight .http = 1 := by simp [Sys.inFlight, hpc, MainPc.pendingAdd]
      omega
    · have : s.inFlight .https = 1 := by simp [Sys.inFlight, hpc, MainPc.pendingAdd]
      omega
  · intro hpc hne l
    have hw : s.wait = 0 := by
      by_contra hw
      apply hne
      simp [step, stepMain, hpc, hw]
    exact settled_of_wait_zero o s hs hw l
  · intro c hc
    exact ⟨(hs.exit c hc).1, settled_of_wait_zero o s hs (hs.exit c hc).2⟩
  · intro l err hl
    exact serve_return_runs o s hs l err hl
  · intro l a s1 ha hst
    exact listener_step_local o s hs l a ha s1 hst
  · intro l hl
    refine ⟨?_, ?_⟩
    · cases l <;> simp only [Sys.goroutine] at hl <;>
        simp only [step, stepGoroutine, Sys.goroutine, hl] <;> split <;> rfl
    · intro err
      cases l <;> simp only [Sys.goroutine] at hl <;>
        simp only [step, stepServeReturns, Sys.goroutine, hl] <;> split <;> rfl

/-- Scenario 6 of the specification: after the plaintext listener failed to bind, `main` is
still blocked in `wait.Wait()` on the TLS listener, whose return then frees it. -/
theorem C10_main_waits_for_every_started_listener_witness :
    Reachable dualOptions bindFailureState ∧
    bindFailureState.wait = 1 ∧
    step dualOptions .main bindFailureState = none ∧
    (∃ s1, run dualOptions [.serveReturns .https none, .goroutine .https, .goroutine .https]
        bindFailureState = some s1 ∧ s1.wait = 0 ∧ s1.goroutine .http = .finished) := by
  have hr : Reachable dualOptions bindFailureState := ⟨bindFailureSchedule, by decide⟩
  have h := C10_main_waits_for_every_started_listener dualOptions bindFailureState hr
  refine ⟨hr, by decide, by decide, ?_⟩
  obtain ⟨s1, h1, _, h3, _, h5, _⟩ := h.2.2.2.2.1 .https none (by decide)
  exact ⟨s1, h1, by rw [h3]; decide, by rw [h5 .http (by decide)]; decide⟩

/-- **C7.** The startup plan of `main`: the gate is installed exactly when `auth-username` and
`auth-password` are both non-empty (`useBasicAuth`), and without it every request reaches the
proxy engine right after its log line, whatever its headers; in every reachable state a started
listener is one the options enable, and once `main` has reached `wait.Wait()` the TLS listener
has been started exactly when `cert`, `key` and `https-port` are all non-empty and the
plaintext listener exactly when `port` is non-empty; `main` does reach `wait.Wait()`. -/
theorem C7_startup_plan (o : Options) (proxy : HandlerFunc) :
    (useBasicAuth o = true ↔ o.authUsername ≠ [] ∧ o.authPassword ≠ []) ∧
    (o.authUsername ≠ [] ∧ o.authPassword ≠ [] →
      mainHandler o proxy = logRequest (basicAuth proxy (credentialValidator o))) ∧
    (o.authUsername = [] ∨ o.authPassword = [] →
      mainHandler o proxy = logRequest proxy ∧
      ∀ r s, mainHandler o proxy r s = proxy r ⟨s.w, s.log ++ [requestLine r]⟩) ∧
    (∀ s, Reachable o s →
      (s.https ≠ .notStarted → o.certFile ≠ [] ∧ o.keyFile ≠ [] ∧ o.httpsPort ≠ []) ∧
      (s.http ≠ .notStarted → o.httpPort ≠ []) ∧
      ((s.pc = .waiting ∨ ∃ c, s.pc = .exited c) →
        (s.https ≠ .notStarted ↔ o.certFile ≠ [] ∧ o.keyFile ≠ [] ∧ o.httpsPort ≠ []) ∧
        (s.http ≠ .notStarted ↔ o.httpPort ≠ []))) ∧
    (∃ n s, run o (List.replicate n .main) Sys.init = some s ∧ s.pc = .waiting) := by
  refine ⟨useBasicAuth_iff o, ?_, ?_, ?_, ?_⟩
  · intro hb
    have hA : useBasicAuth o = true := (useBasicAuth_iff o).2 hb
    unfold mainHandler; rw [hA]; rfl
  · intro hb
    have hA : useBasicAuth o = false := by
      cases h : useBasicAuth o with
      | false => rfl
      | true =>
        have := (useBasicAuth_iff o).1 h
        rcases hb with hb | hb
        · exact absurd hb this.1
        · exact absurd hb this.2
    refine ⟨?_, ?_⟩
    · unfold mainHandler; rw [hA]; rfl
    · intro r s
      unfold mainHandler; rw [hA]; rfl
  · intro s hr
    have hs := Inv_of_Reachable o s hr
    refine ⟨?_, ?_, ?_⟩
    · intro hne
      exact (useHttps_iff o).1 ((hs.https_plan (hs.https_started hne)).1 hne)
    · intro hne
      exact (hs.http_plan (hs.http_started hne)).1 hne
    · intro hpc
      have h8 : 8 ≤ s.pc.rank := by
        rcases hpc with hpc | ⟨c, hpc⟩ <;> rw [hpc] <;> simp [MainPc.rank]
      exact ⟨(hs.https_plan h8).trans (useHttps_iff o), hs.http_plan (by omega)⟩
  · cases h1 : (o.httpPort != []) <;> cases h2 : useHttps o
    · exact ⟨2, ⟨.waiting, 0, .notStarted, .notStarted, []⟩,
        by simp [List.replicate, run, step, stepMain, Sys.init, h1, h2], rfl⟩
    · exact ⟨5, ⟨.waiting, 1, .notStarted, .serving,
          [str "https listen at " ++ listenAddr o.bind o.httpsPort ++ str "\n"]⟩,
        by simp [List.replicate, run, step, stepMain, Sys.init, Sys.Add, h1, h2], rfl⟩
    · exact ⟨5, ⟨.waiting, 1, .serving, .notStarted,
          [str "http listen at " ++ listenAddr o.bind o.httpPort ++ str "\n"]⟩,
        by simp [List.replicate, run, step, stepMain, Sys.init, Sys.Add, h1, h2], rfl⟩
    · exact ⟨8, ⟨.waiting, 2, .serving, .serving,
          [str "http listen at " ++ listenAddr o.bind o.httpPort ++ str "\n",
           str "https listen at " ++ listenAddr o.bind o.httpsPort ++ str "\n"]⟩,
        by simp [List.replicate, run, step, stepMain, Sys.init, Sys.Add, h1, h2], rfl⟩

end SimpleHttpProxy
